import Mathlib

/-
  Verification of the diff-based consensus state-transition engine
  (modules/consensus/diffs.go): the commit engine for the five diff kinds,
  the delayed-output maturity bucket lifecycle, the per-node diff committer,
  and the per-block apply/revert orchestration.

  Storage is modelled as a record of function-maps; the embedded boltdb
  transaction is modelled as all-or-nothing (a failing update body leaves the
  consensus-set state unchanged).  Go panics guarded by build.DEBUG are
  modelled as a distinct `fatal` outcome, ordinary returned errors as `err`.
  Helper primitives that live outside diffs.go (addSiacoinOutput,
  createDSCOBucket, ...) are modelled from the spec, as marked on each.
-/

namespace SiaConsensus

/-- build.DEBUG: the spec fixes test builds to always enable the sanity
checks, so the model runs with the assertions on. -/
def DEBUG : Bool := true

/-- types.MaturityDelay: fixed number of blocks an output must wait before
becoming spendable (the exact constant is irrelevant to the claims). -/
def MaturityDelay : Nat := 144

/-- Direction tag carried by every diff and passed to every commit call
(modules.DiffApply / modules.DiffRevert). -/
inductive DiffDirection where
  | DiffApply
  | DiffRevert
deriving DecidableEq

/-- The opposite of a commit direction (used to state the round-trip law). -/
def DiffDirection.opposite : DiffDirection → DiffDirection
  | .DiffApply => .DiffRevert
  | .DiffRevert => .DiffApply

/-- Error values of the engine.  The named constructors mirror the error
variables declared at the top of diffs.go; `validationFailed` / `applyFailed`
/ `maintenanceFailed` stand for errors surfaced by the abstract collaborators
(transaction validator / transaction applier / maintenance), and `combined`
models the ad hoc concatenation of two error messages on the rollback path. -/
inductive Err where
  | applySiafundPoolDiffMismatch
  | badCommitSiacoinOutputDiff
  | badCommitFileContractDiff
  | badCommitSiafundOutputDiff
  | badCommitDelayedSiacoinOutputDiff
  | badMaturityHeight
  | deletingNonEmptyDelayedMap
  | diffsNotGenerated
  | invalidSuccessor
  | negativePoolAdjustment
  | nonApplySiafundPoolDiff
  | revertSiafundPoolDiffMismatch
  | wrongAppliedDiffSet
  | wrongRevertDiffSet
  | missingBlockMapEntry
  | popEmptyPath
  | badBlockPathPut
  | validationFailed (code : Nat)
  | applyFailed (code : Nat)
  | maintenanceFailed (code : Nat)
  | combined (u v : Err)
deriving DecidableEq

/-- Outcome of an operation: success, a returned (recoverable) error, or a
fatal invariant violation (a Go panic behind build.DEBUG). -/
inductive Res (α : Type) where
  | ok (a : α)
  | err (e : Err)
  | fatal (e : Err)
deriving DecidableEq

/-- Sequencing of outcomes: errors and fatal faults short-circuit. -/
def Res.bind {α β : Type} : Res α → (α → Res β) → Res β
  | .ok a, f => f a
  | .err e, _ => .err e
  | .fatal e, _ => .fatal e

/-- modules.SiacoinOutputDiff: direction, output id, full output value. -/
structure SiacoinOutputDiff where
  Direction : DiffDirection
  ID : Nat
  SiacoinOutput : Nat
deriving DecidableEq

/-- modules.FileContractDiff: direction, contract id, full contract value. -/
structure FileContractDiff where
  Direction : DiffDirection
  ID : Nat
  FileContract : Nat
deriving DecidableEq

/-- modules.SiafundOutputDiff: direction, output id, full output value. -/
structure SiafundOutputDiff where
  Direction : DiffDirection
  ID : Nat
  SiafundOutput : Nat
deriving DecidableEq

/-- modules.DelayedSiacoinOutputDiff: direction, output id, output value and
the maturity height keying the bucket the output lives in. -/
structure DelayedSiacoinOutputDiff where
  Direction : DiffDirection
  ID : Nat
  SiacoinOutput : Nat
  MaturityHeight : Nat
deriving DecidableEq

/-- modules.SiafundPoolDiff: previous and adjusted pool values plus the
direction tag fixed at generation time. -/
structure SiafundPoolDiff where
  Direction : DiffDirection
  Previous : Nat
  Adjusted : Nat
deriving DecidableEq

/-- types.Block, reduced to the fields this engine reads: its identifier and
its ordered transaction list (transactions are opaque tokens consumed by the
abstract validator / applier collaborators). -/
structure Block where
  ID : Nat
  Transactions : List Nat
deriving DecidableEq

/-- processedBlock: a block plus processing metadata and the five ordered
diff collections generated while processing it. -/
structure ProcessedBlock where
  block : Block
  Parent : Nat
  Height : Nat
  DiffsGenerated : Bool
  SiacoinOutputDiffs : List SiacoinOutputDiff
  FileContractDiffs : List FileContractDiff
  SiafundOutputDiffs : List SiafundOutputDiff
  DelayedSiacoinOutputDiffs : List DelayedSiacoinOutputDiff
  SiafundPoolDiffs : List SiafundPoolDiff
  ConsensusSetHash : Nat
deriving DecidableEq

/-- An entity map of the store: id to stored value. -/
abbrev OMap : Type := Nat → Option Nat

/-- A height-keyed maturity bucket: its member map and its tracked size (the
size is what the emptiness assertion of the bucket destroyer reads). -/
@[ext]
structure Bucket where
  m : OMap
  sz : Int

/-- The bucket map: maturity height to optionally-existing bucket. -/
abbrev DMap : Type := Nat → Option Bucket

/-- A freshly created, empty delayed-output bucket. -/
def emptyBucket : Bucket := ⟨fun _ => none, 0⟩

/-- The persistent storage state: the entity maps for the three output
kinds, the delayed-output buckets, the siafund pool accumulator, the
height-indexed canonical path and the block map. -/
@[ext]
structure Store where
  SiacoinOutputs : OMap
  FileContracts : OMap
  SiafundOutputs : OMap
  DelayedSiacoinOutputs : DMap
  SiafundPool : Nat
  BlockPath : List Nat
  BlockMap : Nat → Option ProcessedBlock

/-- The consensus set: the store plus the in-memory known-invalid block set
(cs.dosBlocks). -/
@[ext]
structure CState where
  db : Store
  dosBlocks : Nat → Bool

/-- Point update of a function map. -/
def upd {β : Type} (f : Nat → Option β) (k : Nat) (v : Option β) : Nat → Option β :=
  fun x => if x = k then v else f x

/-- Marks membership of a block identifier in the known-invalid set. -/
def addDos (k : Nat) (f : Nat → Bool) : Nat → Bool :=
  fun x => if x = k then true else f x

/- ---------------------------------------------------------------------
   Storage accessor primitives.  These live outside diffs.go; each is
   modelled from the spec (section 4.1 commit engine actions, section 4.2
   bucket lifecycle, section 3 canonical path).
   --------------------------------------------------------------------- -/

/-- Modelled from the spec: forward action of a coin-output diff — insert
the entity keyed by ID, failing if it is already present (rogue diff). -/
def addSiacoinOutput (k v : Nat) (s : Store) : Res Store :=
  match s.SiacoinOutputs k with
  | some _ => .err .badCommitSiacoinOutputDiff
  | none => .ok { s with SiacoinOutputs := upd s.SiacoinOutputs k (some v) }

/-- Modelled from the spec: inverse action of a coin-output diff — delete by
ID, failing if absent. -/
def removeSiacoinOutput (k : Nat) (s : Store) : Res Store :=
  match s.SiacoinOutputs k with
  | none => .err .badCommitSiacoinOutputDiff
  | some _ => .ok { s with SiacoinOutputs := upd s.SiacoinOutputs k none }

/-- Modelled from the spec: insert a file contract keyed by ID, failing if
already present. -/
def addFileContract (k v : Nat) (s : Store) : Res Store :=
  match s.FileContracts k with
  | some _ => .err .badCommitFileContractDiff
  | none => .ok { s with FileContracts := upd s.FileContracts k (some v) }

/-- Modelled from the spec: delete a file contract by ID, failing if
absent. -/
def removeFileContract (k : Nat) (s : Store) : Res Store :=
  match s.FileContracts k with
  | none => .err .badCommitFileContractDiff
  | some _ => .ok { s with FileContracts := upd s.FileContracts k none }

/-- Modelled from the spec: insert a siafund output keyed by ID, failing if
already present. -/
def addSiafundOutput (k v : Nat) (s : Store) : Res Store :=
  match s.SiafundOutputs k with
  | some _ => .err .badCommitSiafundOutputDiff
  | none => .ok { s with SiafundOutputs := upd s.SiafundOutputs k (some v) }

/-- Modelled from the spec: delete a siafund output by ID, failing if
absent. -/
def removeSiafundOutput (k : Nat) (s : Store) : Res Store :=
  match s.SiafundOutputs k with
  | none => .err .badCommitSiafundOutputDiff
  | some _ => .ok { s with SiafundOutputs := upd s.SiafundOutputs k none }

/-- Modelled from the spec: insert a delayed output into the bucket for its
maturity height, failing with "bad maturity height" when that height has no
bucket, and as a rogue diff when the id is already present. -/
def addDSCO (h k v : Nat) (s : Store) : Res Store :=
  match s.DelayedSiacoinOutputs h with
  | none => .err .badMaturityHeight
  | some b =>
    match b.m k with
    | some _ => .err .badCommitDelayedSiacoinOutputDiff
    | none => .ok { s with DelayedSiacoinOutputs := upd s.DelayedSiacoinOutputs h (some ⟨upd b.m k (some v), b.sz + 1⟩) }

/-- Modelled from the spec: remove a delayed output from the bucket for its
maturity height, failing when the bucket or the entry is missing. -/
def removeDSCO (h k : Nat) (s : Store) : Res Store :=
  match s.DelayedSiacoinOutputs h with
  | none => .err .badMaturityHeight
  | some b =>
    match b.m k with
    | none => .err .badCommitDelayedSiacoinOutputDiff
    | some _ => .ok { s with DelayedSiacoinOutputs := upd s.DelayedSiacoinOutputs h (some ⟨upd b.m k none, b.sz - 1⟩) }

/-- Reads the siafund pool accumulator. -/
def getSiafundPool (s : Store) : Nat := s.SiafundPool

/-- Writes the siafund pool accumulator. -/
def setSiafundPool (v : Nat) (s : Store) : Store := { s with SiafundPool := v }

/-- Modelled from the spec: ensure the delayed-output bucket for the given
height exists, creating an empty one if absent (section 4.2: "ensure the
bucket exists (create if absent)"). -/
def createDSCOBucket (h : Nat) (s : Store) : Res Store :=
  match s.DelayedSiacoinOutputs h with
  | some _ => .ok s
  | none => .ok { s with DelayedSiacoinOutputs := upd s.DelayedSiacoinOutputs h (some emptyBucket) }

/-- Modelled from the spec: number of delayed outputs in the bucket at the
given height (0 when the bucket is absent). -/
def lenDelayedSiacoinOutputsHeight (h : Nat) (s : Store) : Int :=
  match s.DelayedSiacoinOutputs h with
  | some b => b.sz
  | none => 0

/-- Modelled from the spec: destroy the delayed-output bucket at the given
height. -/
def rmDelayedSiacoinOutputs (h : Nat) (s : Store) : Store :=
  { s with DelayedSiacoinOutputs := upd s.DelayedSiacoinOutputs h none }

/-- Modelled from the spec: append a block identifier as the new canonical
path tip. -/
def pushPath (bid : Nat) (s : Store) : Res Store :=
  .ok { s with BlockPath := s.BlockPath ++ [bid] }

/-- Modelled from the spec: remove the canonical path tip entry, failing on
an empty path. -/
def popPath (s : Store) : Res Store :=
  match s.BlockPath with
  | [] => .err .popEmptyPath
  | _ :: _ => .ok { s with BlockPath := s.BlockPath.dropLast }

/-- Modelled from the spec: the identifier of the current chain tip (the
last canonical path entry). -/
def currentBlockID (s : Store) : Nat := s.BlockPath.getLastD 0

/-- Modelled from the spec: the raw put into the height-indexed canonical
path bucket performed by generateAndApplyDiff; at the next height it appends
a new tip, at an existing height it overwrites, and a sparse put beyond the
next height is rejected. -/
def blockPathPut (h bid : Nat) (s : Store) : Res Store :=
  if h = s.BlockPath.length then .ok { s with BlockPath := s.BlockPath ++ [bid] }
  else if h < s.BlockPath.length then .ok { s with BlockPath := s.BlockPath.set h bid }
  else .err .badBlockPathPut

/- ---------------------------------------------------------------------
   The commit engine (diffs.go lines 40-102).
   --------------------------------------------------------------------- -/

/-- commitSiacoinOutputDiff applies or reverts a SiacoinOutputDiff. -/
def commitSiacoinOutputDiff (scod : SiacoinOutputDiff) (dir : DiffDirection) (s : Store) : Res Store :=
  if scod.Direction = dir then addSiacoinOutput scod.ID scod.SiacoinOutput s
  else removeSiacoinOutput scod.ID s

/-- commitFileContractDiff applies or reverts a FileContractDiff. -/
def commitFileContractDiff (fcd : FileContractDiff) (dir : DiffDirection) (s : Store) : Res Store :=
  if fcd.Direction = dir then addFileContract fcd.ID fcd.FileContract s
  else removeFileContract fcd.ID s

/-- commitSiafundOutputDiff applies or reverts a Siafund output diff. -/
def commitSiafundOutputDiff (sfod : SiafundOutputDiff) (dir : DiffDirection) (s : Store) : Res Store :=
  if sfod.Direction = dir then addSiafundOutput sfod.ID sfod.SiafundOutput s
  else removeSiafundOutput sfod.ID s

/-- commitDelayedSiacoinOutputDiff applies or reverts a
delayedSiacoinOutputDiff. -/
def commitDelayedSiacoinOutputDiff (dscod : DelayedSiacoinOutputDiff) (dir : DiffDirection) (s : Store) : Res Store :=
  if dscod.Direction = dir then addDSCO dscod.MaturityHeight dscod.ID dscod.SiacoinOutput s
  else removeDSCO dscod.MaturityHeight dscod.ID s

/-- commitSiafundPoolDiff applies or reverts a SiafundPoolDiff, with the
DEBUG sanity checks that the pool only ever increases, that pool diffs carry
the apply direction, and that the stored pool value matches the diff's
expected value for the requested direction. -/
def commitSiafundPoolDiff (sfpd : SiafundPoolDiff) (dir : DiffDirection) (s : Store) : Res Store :=
  if DEBUG ∧ sfpd.Adjusted < sfpd.Previous then .fatal .negativePoolAdjustment
  else if DEBUG ∧ ¬sfpd.Direction = .DiffApply then .fatal .nonApplySiafundPoolDiff
  else match dir with
  | .DiffApply =>
    if DEBUG ∧ ¬getSiafundPool s = sfpd.Previous then .fatal .applySiafundPoolDiffMismatch
    else .ok (setSiafundPool sfpd.Adjusted s)
  | .DiffRevert =>
    if DEBUG ∧ ¬getSiafundPool s = sfpd.Adjusted then .fatal .revertSiafundPoolDiffMismatch
    else .ok (setSiafundPool sfpd.Previous s)

/- ---------------------------------------------------------------------
   commitDiffSetSanity, bucket lifecycle, node diff committer,
   path updater, commitDiffSet (diffs.go lines 104-269).
   --------------------------------------------------------------------- -/

/-- commitDiffSetSanity performs the DEBUG sanity checks before committing a
diff set: diffs must be generated, the parent must be the tip when applying,
and the node itself must be the tip when reverting.  A missing parent entry
in the block map is the nil-dereference fault of the corresponding lookup. -/
def commitDiffSetSanity (pb : ProcessedBlock) (dir : DiffDirection) (c : CState) : Res Unit :=
  if DEBUG then
    if ¬pb.DiffsGenerated then .fatal .diffsNotGenerated
    else match dir with
      | .DiffApply =>
        match c.db.BlockMap pb.Parent with
        | none => .fatal .missingBlockMapEntry
        | some parent =>
          if ¬parent.block.ID = currentBlockID c.db then .fatal .wrongAppliedDiffSet
          else .ok ()
      | .DiffRevert =>
        if ¬pb.block.ID = currentBlockID c.db then .fatal .wrongRevertDiffSet
        else .ok ()
  else .ok ()

/-- createUpcomingDelayedOutputMaps creates the delayed siacoin output maps
that will be used when applying delayed siacoin outputs in the diff set. -/
def createUpcomingDelayedOutputMaps (pb : ProcessedBlock) (dir : DiffDirection) (s : Store) : Res Store :=
  match dir with
  | .DiffApply => createDSCOBucket (pb.Height + MaturityDelay) s
  | .DiffRevert =>
    if MaturityDelay < pb.Height then createDSCOBucket pb.Height s
    else .ok s

/-- Committing a list of diffs with early exit on the first error, the shape
of each for-loop of commitNodeDiffs. -/
def commitEach {α : Type} (f : α → Store → Res Store) : List α → Store → Res Store
  | [], s => .ok s
  | d :: tl, s =>
    match f d s with
    | .ok t => commitEach f tl t
    | .err e => .err e
    | .fatal e => .fatal e

/-- The body of the single storage transaction of commitNodeDiffs: all five
diff collections committed in category order, each in insertion order when
applying and in reverse insertion order when reverting. -/
def commitNodeDiffsTx (pb : ProcessedBlock) (dir : DiffDirection) (s : Store) : Res Store :=
  match dir with
  | .DiffApply =>
    (commitEach (fun d => commitSiacoinOutputDiff d dir) pb.SiacoinOutputDiffs s).bind fun s1 =>
    (commitEach (fun d => commitFileContractDiff d dir) pb.FileContractDiffs s1).bind fun s2 =>
    (commitEach (fun d => commitSiafundOutputDiff d dir) pb.SiafundOutputDiffs s2).bind fun s3 =>
    (commitEach (fun d => commitDelayedSiacoinOutputDiff d dir) pb.DelayedSiacoinOutputDiffs s3).bind fun s4 =>
    commitEach (fun d => commitSiafundPoolDiff d dir) pb.SiafundPoolDiffs s4
  | .DiffRevert =>
    (commitEach (fun d => commitSiacoinOutputDiff d dir) pb.SiacoinOutputDiffs.reverse s).bind fun s1 =>
    (commitEach (fun d => commitFileContractDiff d dir) pb.FileContractDiffs.reverse s1).bind fun s2 =>
    (commitEach (fun d => commitSiafundOutputDiff d dir) pb.SiafundOutputDiffs.reverse s2).bind fun s3 =>
    (commitEach (fun d => commitDelayedSiacoinOutputDiff d dir) pb.DelayedSiacoinOutputDiffs.reverse s3).bind fun s4 =>
    commitEach (fun d => commitSiafundPoolDiff d dir) pb.SiafundPoolDiffs.reverse s4

/-- One scoped atomic storage transaction at the consensus-set level: a
failing body (error or fault) leaves the store unchanged. -/
def dbUpdate (body : Store → Res Store) (c : CState) : Res Unit × CState :=
  match body c.db with
  | .ok t => (.ok (), { c with db := t })
  | .err e => (.err e, c)
  | .fatal e => (.fatal e, c)

/-- commitNodeDiffs commits all of the diffs in a block node inside one
storage transaction. -/
def commitNodeDiffs (pb : ProcessedBlock) (dir : DiffDirection) (c : CState) : Res Unit × CState :=
  dbUpdate (commitNodeDiffsTx pb dir) c

/-- deleteObsoleteDelayedOutputMaps deletes the delayed siacoin output maps
that are no longer in use, asserting (DEBUG) that the destroyed map is
empty. -/
def deleteObsoleteDelayedOutputMaps (pb : ProcessedBlock) (dir : DiffDirection) (s : Store) : Res Store :=
  match dir with
  | .DiffApply =>
    if MaturityDelay < pb.Height then
      if DEBUG ∧ ¬lenDelayedSiacoinOutputsHeight pb.Height s = 0 then
        .fatal .deletingNonEmptyDelayedMap
      else .ok (rmDelayedSiacoinOutputs pb.Height s)
    else .ok s
  | .DiffRevert =>
    if DEBUG ∧ ¬lenDelayedSiacoinOutputsHeight (pb.Height + MaturityDelay) s = 0 then
      .fatal .deletingNonEmptyDelayedMap
    else .ok (rmDelayedSiacoinOutputs (pb.Height + MaturityDelay) s)

/-- updateCurrentPath updates the current path after applying a diff set:
push the block as the new tip when applying, pop the tip when reverting; a
failing path operation is a DEBUG panic. -/
def updateCurrentPath (pb : ProcessedBlock) (dir : DiffDirection) (s : Store) : Res Store :=
  match dir with
  | .DiffApply =>
    match pushPath pb.block.ID s with
    | .ok t => .ok t
    | .err e => if DEBUG then .fatal e else .ok s
    | .fatal e => .fatal e
  | .DiffRevert =>
    match popPath s with
    | .ok t => .ok t
    | .err e => if DEBUG then .fatal e else .ok s
    | .fatal e => .fatal e

/-- The tail of commitDiffSet after the node diffs have been committed:
delete the obsolete delayed-output map, then update the current path. -/
def deleteAndPath (pb : ProcessedBlock) (dir : DiffDirection) (c : CState) : Res Unit × CState :=
  match deleteObsoleteDelayedOutputMaps pb dir c.db with
  | .fatal e => (.fatal e, c)
  | .err e => (.err e, c)
  | .ok t =>
    match updateCurrentPath pb dir t with
    | .fatal e => (.fatal e, { c with db := t })
    | .err e => (.err e, { c with db := t })
    | .ok u => (.ok (), { c with db := u })

/-- commitDiffSet applies or reverts the diffs in a blockNode: sanity
checks, upcoming bucket creation, node diff commit (whose returned error is
discarded), obsolete bucket deletion and path update. -/
def commitDiffSet (pb : ProcessedBlock) (dir : DiffDirection) (c : CState) : Res Unit × CState :=
  match commitDiffSetSanity pb dir c with
  | .fatal e => (.fatal e, c)
  | .err e => (.err e, c)
  | .ok _ =>
    match dbUpdate (createUpcomingDelayedOutputMaps pb dir) c with
    | (.err e, c1) => (.err e, c1)
    | (.fatal e, c1) => (.fatal e, c1)
    | (.ok _, c1) =>
      match commitNodeDiffs pb dir c1 with
      | (.fatal e, c2) => (.fatal e, c2)
      | (.ok _, c2) => deleteAndPath pb dir c2
      | (.err _, c2) => deleteAndPath pb dir c2

/- ---------------------------------------------------------------------
   generateAndApplyDiff (diffs.go lines 271-359) and its abstract
   collaborators.
   --------------------------------------------------------------------- -/

/-- The five ordered diff collections generated by one call of an abstract
collaborator (one transaction's effects, or one maintenance pass). -/
structure DiffSet where
  scods : List SiacoinOutputDiff
  fcds : List FileContractDiff
  sfods : List SiafundOutputDiff
  dscods : List DelayedSiacoinOutputDiff
  sfpds : List SiafundPoolDiff

/-- Append a generated diff collection to a node's diff lists (the appends
performed while a transaction or maintenance pass is applied). -/
def appendDiffs (pb : ProcessedBlock) (ds : DiffSet) : ProcessedBlock :=
  { pb with
    SiacoinOutputDiffs := pb.SiacoinOutputDiffs ++ ds.scods
    FileContractDiffs := pb.FileContractDiffs ++ ds.fcds
    SiafundOutputDiffs := pb.SiafundOutputDiffs ++ ds.sfods
    DelayedSiacoinOutputDiffs := pb.DelayedSiacoinOutputDiffs ++ ds.dscods
    SiafundPoolDiffs := pb.SiafundPoolDiffs ++ ds.sfpds }

/-- Commit a freshly generated diff collection forward (direction
DiffApply), category by category in insertion order: the storage effect of
applying one transaction's (or maintenance pass's) generated diffs. -/
def applyDiffSetFwd (ds : DiffSet) (s : Store) : Res Store :=
  (commitEach (fun d => commitSiacoinOutputDiff d .DiffApply) ds.scods s).bind fun s1 =>
  (commitEach (fun d => commitFileContractDiff d .DiffApply) ds.fcds s1).bind fun s2 =>
  (commitEach (fun d => commitSiafundOutputDiff d .DiffApply) ds.sfods s2).bind fun s3 =>
  (commitEach (fun d => commitDelayedSiacoinOutputDiff d .DiffApply) ds.dscods s3).bind fun s4 =>
  commitEach (fun d => commitSiafundPoolDiff d .DiffApply) ds.sfpds s4

/-- Modelled from the spec: the abstract collaborators of the block
processor.  `validTx` is the transaction validator (a pure check of current
state); `txnDiffs` gives the diffs one transaction generates from a state
(applyTransaction commits them forward and appends them to the node);
`matDiffs` gives the diffs of the maturity maintenance pass
(applyMaturedSiacoinOutputs); `maintDiffs` those of the full end-of-block
maintenance (applyMaintenance); `hashFn` is the debug consensus-set
fingerprint. -/
structure Collaborators where
  validTx : Nat → Store → Option Err
  txnDiffs : Nat → Store → DiffSet
  matDiffs : ProcessedBlock → Store → DiffSet
  maintDiffs : ProcessedBlock → Store → DiffSet
  hashFn : Store → Nat

/-- The initial storage update of generateAndApplyDiff: record the block's
identifier at its height in the path bucket and pre-create the maturity
bucket at Height + MaturityDelay. -/
def gadInit (pb : ProcessedBlock) (s : Store) : Res Store :=
  (blockPathPut pb.Height pb.block.ID s).bind fun s1 =>
  createDSCOBucket (pb.Height + MaturityDelay) s1

/-- The per-transaction loop of generateAndApplyDiff.  For each transaction:
validate against current state; on failure apply the matured-output
maintenance alone (combining errors if that itself fails), revert the node's
diffs (discarding the result of commitDiffSet, though a fault still
propagates), record the block as a known-invalid block and surface the
validation error.  On success apply the transaction's effects, returning its
error without any rollback when applying fails. -/
def gadLoop (collab : Collaborators) (bid : Nat) :
    List Nat → ProcessedBlock → CState → Res Unit × ProcessedBlock × CState
  | [], pb, c => (.ok (), pb, c)
  | txn :: tl, pb, c =>
    match collab.validTx txn c.db with
    | some e =>
      match applyDiffSetFwd (collab.matDiffs pb c.db) c.db with
      | .err ue => (.err (.combined ue e), pb, c)
      | .fatal f => (.fatal f, pb, c)
      | .ok sM =>
        let pbM := appendDiffs pb (collab.matDiffs pb c.db)
        match commitDiffSet pbM .DiffRevert { c with db := sM } with
        | (.fatal f, cR) => (.fatal f, pbM, cR)
        | (.ok _, cR) => (.err e, pbM, { cR with dosBlocks := addDos bid cR.dosBlocks })
        | (.err _, cR) => (.err e, pbM, { cR with dosBlocks := addDos bid cR.dosBlocks })
    | none =>
      match applyDiffSetFwd (collab.txnDiffs txn c.db) c.db with
      | .ok sN => gadLoop collab bid tl (appendDiffs pb (collab.txnDiffs txn c.db)) { c with db := sN }
      | .err e => (.err e, pb, c)
      | .fatal f => (.fatal f, pb, c)

/-- generateAndApplyDiff verifies the block transaction by transaction while
integrating it into the consensus state: precondition that the block's
parent is the current tip, initial path/bucket update, diffs-generated flag,
the per-transaction loop, end-of-block maintenance, the debug state
fingerprint and the final block-map update. -/
def generateAndApplyDiff (collab : Collaborators) (pb : ProcessedBlock) (c : CState) :
    Res Unit × ProcessedBlock × CState :=
  if DEBUG ∧ ¬pb.Parent = currentBlockID c.db then (.fatal .invalidSuccessor, pb, c)
  else
    match gadInit pb c.db with
    | .err e => (.fatal e, pb, c)
    | .fatal e => (.fatal e, pb, c)
    | .ok s1 =>
      let pb1 := { pb with DiffsGenerated := true }
      match gadLoop collab pb.block.ID pb.block.Transactions pb1 { c with db := s1 } with
      | (.ok _, pb2, c2) =>
        match applyDiffSetFwd (collab.maintDiffs pb2 c2.db) c2.db with
        | .err e => (.err e, pb2, c2)
        | .fatal f => (.fatal f, pb2, c2)
        | .ok s3 =>
          let pb3 := appendDiffs pb2 (collab.maintDiffs pb2 c2.db)
          let pb4 := if DEBUG then { pb3 with ConsensusSetHash := collab.hashFn s3 } else pb3
          (.ok (), pb4, { c2 with db := { s3 with BlockMap := upd s3.BlockMap pb.block.ID (some pb4) } })
      | (.err e, pb2, c2) => (.err e, pb2, c2)
      | (.fatal f, pb2, c2) => (.fatal f, pb2, c2)

/- ---------------------------------------------------------------------
   The spec-side single ordered diff sequence (section 4.3), used to state
   the ordering claim about commitNodeDiffs.
   --------------------------------------------------------------------- -/

/-- A diff of any of the five kinds. -/
inductive AnyDiff where
  | sco (d : SiacoinOutputDiff)
  | fc (d : FileContractDiff)
  | sfo (d : SiafundOutputDiff)
  | dsco (d : DelayedSiacoinOutputDiff)
  | pool (d : SiafundPoolDiff)
deriving DecidableEq

/-- Commit a diff of any kind by dispatching to the kind's commit
function. -/
def commitAnyDiff (d : AnyDiff) (dir : DiffDirection) (s : Store) : Res Store :=
  match d with
  | .sco d => commitSiacoinOutputDiff d dir s
  | .fc d => commitFileContractDiff d dir s
  | .sfo d => commitSiafundOutputDiff d dir s
  | .dsco d => commitDelayedSiacoinOutputDiff d dir s
  | .pool d => commitSiafundPoolDiff d dir s

/-- The diff processing order stated by the spec: the fixed category order
coin outputs, contracts, alternate-asset outputs, delayed outputs, pool;
each collection in insertion order when applying, and in reverse insertion
order (same relative category order) when reverting. -/
def specDiffOrder (pb : ProcessedBlock) (dir : DiffDirection) : List AnyDiff :=
  match dir with
  | .DiffApply =>
    pb.SiacoinOutputDiffs.map .sco ++ (pb.FileContractDiffs.map .fc ++
      (pb.SiafundOutputDiffs.map .sfo ++ (pb.DelayedSiacoinOutputDiffs.map .dsco ++
        pb.SiafundPoolDiffs.map .pool)))
  | .DiffRevert =>
    pb.SiacoinOutputDiffs.reverse.map .sco ++ (pb.FileContractDiffs.reverse.map .fc ++
      (pb.SiafundOutputDiffs.reverse.map .sfo ++ (pb.DelayedSiacoinOutputDiffs.reverse.map .dsco ++
        pb.SiafundPoolDiffs.reverse.map .pool)))

/- ---------------------------------------------------------------------
   Component-level view of the commit engine.  Each diff kind reads and
   writes exactly one field of the store; these definitions restate each
   kind's commit action on that field alone, and the lemmas below prove the
   store-level functions equal to their componentwise liftings.
   --------------------------------------------------------------------- -/

/-- Insert into an entity map, failing if the key is present. -/
def omapAdd (e : Err) (k v : Nat) (m : OMap) : Res OMap :=
  match m k with
  | some _ => .err e
  | none => .ok (upd m k (some v))

/-- Delete from an entity map, failing if the key is absent. -/
def omapRemove (e : Err) (k : Nat) (m : OMap) : Res OMap :=
  match m k with
  | none => .err e
  | some _ => .ok (upd m k none)

/-- The commit action of an entity diff (direction tag, id, value) on its
entity map: forward insert when the tag matches the requested direction,
inverse delete otherwise. -/
def entryM (e : Err) (dd : DiffDirection) (k v : Nat) (dir : DiffDirection) (m : OMap) : Res OMap :=
  if dd = dir then omapAdd e k v m else omapRemove e k m

/-- Componentwise action of a coin-output diff. -/
def scodM (dir : DiffDirection) (d : SiacoinOutputDiff) : OMap → Res OMap :=
  entryM .badCommitSiacoinOutputDiff d.Direction d.ID d.SiacoinOutput dir

/-- Componentwise action of a file-contract diff. -/
def fcdM (dir : DiffDirection) (d : FileContractDiff) : OMap → Res OMap :=
  entryM .badCommitFileContractDiff d.Direction d.ID d.FileContract dir

/-- Componentwise action of a siafund-output diff. -/
def sfodM (dir : DiffDirection) (d : SiafundOutputDiff) : OMap → Res OMap :=
  entryM .badCommitSiafundOutputDiff d.Direction d.ID d.SiafundOutput dir

/-- Insert into the delayed-output bucket at a maturity height. -/
def dmapAdd (h k v : Nat) (dm : DMap) : Res DMap :=
  match dm h with
  | none => .err .badMaturityHeight
  | some b =>
    match b.m k with
    | some _ => .err .badCommitDelayedSiacoinOutputDiff
    | none => .ok (upd dm h (some ⟨upd b.m k (some v), b.sz + 1⟩))

/-- Remove from the delayed-output bucket at a maturity height. -/
def dmapRemove (h k : Nat) (dm : DMap) : Res DMap :=
  match dm h with
  | none => .err .badMaturityHeight
  | some b =>
    match b.m k with
    | none => .err .badCommitDelayedSiacoinOutputDiff
    | some _ => .ok (upd dm h (some ⟨upd b.m k none, b.sz - 1⟩))

/-- Componentwise action of a delayed-output diff on the bucket map. -/
def dscodM (dir : DiffDirection) (d : DelayedSiacoinOutputDiff) (dm : DMap) : Res DMap :=
  if d.Direction = dir then dmapAdd d.MaturityHeight d.ID d.SiacoinOutput dm
  else dmapRemove d.MaturityHeight d.ID dm

/-- Componentwise action of a pool diff on the pool accumulator. -/
def sfpdM (dir : DiffDirection) (d : SiafundPoolDiff) (p : Nat) : Res Nat :=
  if DEBUG ∧ d.Adjusted < d.Previous then .fatal .negativePoolAdjustment
  else if DEBUG ∧ ¬d.Direction = .DiffApply then .fatal .nonApplySiafundPoolDiff
  else match dir with
  | .DiffApply =>
    if DEBUG ∧ ¬p = d.Previous then .fatal .applySiafundPoolDiffMismatch
    else .ok d.Adjusted
  | .DiffRevert =>
    if DEBUG ∧ ¬p = d.Adjusted then .fatal .revertSiafundPoolDiffMismatch
    else .ok d.Previous

/-- Map a component-level outcome back into a store-level one through a
field rebuild. -/
def liftRes {γ : Type} (r : Res γ) (g : γ → Store) : Res Store :=
  match r with
  | .ok x => .ok (g x)
  | .err e => .err e
  | .fatal e => .fatal e

/-- Early-exit fold of a component-level commit over a diff list. -/
def compFold {α γ : Type} (g : α → γ → Res γ) : List α → γ → Res γ
  | [], x => .ok x
  | d :: tl, x =>
    match g d x with
    | .ok y => compFold g tl y
    | .err e => .err e
    | .fatal e => .fatal e

/-- Checks a pointwise condition along a component-level fold (trivially
true past a failing step, which the fold never reaches). -/
def checkFoldC {α γ : Type} (g : α → γ → Res γ) (c : α → γ → Bool) : List α → γ → Bool
  | [], _ => true
  | d :: tl, x =>
    c d x &&
      match g d x with
      | .ok y => checkFoldC g c tl y
      | .err _ => true
      | .fatal _ => true

/-- The canonical componentwise form of committing five diff collections in
category order against a store. -/
def storeFolds (dir : DiffDirection) (l1 : List SiacoinOutputDiff)
    (l2 : List FileContractDiff) (l3 : List SiafundOutputDiff)
    (l4 : List DelayedSiacoinOutputDiff) (l5 : List SiafundPoolDiff)
    (s : Store) : Res Store :=
  match compFold (scodM dir) l1 s.SiacoinOutputs with
  | .err e => .err e
  | .fatal e => .fatal e
  | .ok m1 =>
    match compFold (fcdM dir) l2 s.FileContracts with
    | .err e => .err e
    | .fatal e => .fatal e
    | .ok m2 =>
      match compFold (sfodM dir) l3 s.SiafundOutputs with
      | .err e => .err e
      | .fatal e => .fatal e
      | .ok m3 =>
        match compFold (dscodM dir) l4 s.DelayedSiacoinOutputs with
        | .err e => .err e
        | .fatal e => .fatal e
        | .ok m4 =>
          match compFold (sfpdM dir) l5 s.SiafundPool with
          | .err e => .err e
          | .fatal e => .fatal e
          | .ok p5 => .ok { s with SiacoinOutputs := m1, FileContracts := m2, SiafundOutputs := m3, DelayedSiacoinOutputs := m4, SiafundPool := p5 }

/-- Pointwise condition on an entity diff making its inverse-first commit
reversible: either the forward action runs, or the stored value equals the
value recorded in the diff. -/
def centry (dd : DiffDirection) (k v : Nat) (dir : DiffDirection) (m : OMap) : Bool :=
  decide (dd = dir) || decide (m k = some v)

/-- `centry` for a coin-output diff. -/
def cSCOc (dir : DiffDirection) (d : SiacoinOutputDiff) (m : OMap) : Bool :=
  centry d.Direction d.ID d.SiacoinOutput dir m

/-- `centry` for a file-contract diff. -/
def cFCc (dir : DiffDirection) (d : FileContractDiff) (m : OMap) : Bool :=
  centry d.Direction d.ID d.FileContract dir m

/-- `centry` for a siafund-output diff. -/
def cSFOc (dir : DiffDirection) (d : SiafundOutputDiff) (m : OMap) : Bool :=
  centry d.Direction d.ID d.SiafundOutput dir m

/-- Pointwise reversibility condition on a delayed-output diff: either the
forward action runs, or the bucket holds exactly the recorded value. -/
def cDSCOc (dir : DiffDirection) (d : DelayedSiacoinOutputDiff) (dm : DMap) : Bool :=
  decide (d.Direction = dir) ||
    decide ((dm d.MaturityHeight).bind (fun b => b.m d.ID) = some d.SiacoinOutput)

/-- A generated diff collection is consistent with a store when every diff
acting as a removal under forward commit removes exactly the value it
records (pool diffs carry their own value checks). -/
def dsConsistent (ds : DiffSet) (s : Store) : Bool :=
  checkFoldC (scodM .DiffApply) (cSCOc .DiffApply) ds.scods s.SiacoinOutputs &&
  checkFoldC (fcdM .DiffApply) (cFCc .DiffApply) ds.fcds s.FileContracts &&
  checkFoldC (sfodM .DiffApply) (cSFOc .DiffApply) ds.sfods s.SiafundOutputs &&
  checkFoldC (dscodM .DiffApply) (cDSCOc .DiffApply) ds.dscods s.DelayedSiacoinOutputs

/-- A node's five diff collections are consistent with a store, in the sense
of `dsConsistent`. -/
def nodeConsistent (pb : ProcessedBlock) (s : Store) : Bool :=
  checkFoldC (scodM .DiffApply) (cSCOc .DiffApply) pb.SiacoinOutputDiffs s.SiacoinOutputs &&
  checkFoldC (fcdM .DiffApply) (cFCc .DiffApply) pb.FileContractDiffs s.FileContracts &&
  checkFoldC (sfodM .DiffApply) (cSFOc .DiffApply) pb.SiafundOutputDiffs s.SiafundOutputs &&
  checkFoldC (dscodM .DiffApply) (cDSCOc .DiffApply) pb.DelayedSiacoinOutputDiffs s.DelayedSiacoinOutputs

/-- Executable description of a run of the transaction loop that reaches a
transaction failing validation, with every prior transaction validating and
applying cleanly (and its diffs consistent, so they can be reverted), and
with the maturity maintenance of the failing step succeeding: returns the
validation error together with the node and store state at the point where
commitDiffSet-revert is invoked. -/
def runFails (collab : Collaborators) :
    List Nat → ProcessedBlock → Store → Option (Err × ProcessedBlock × Store)
  | [], _, _ => none
  | txn :: tl, pb, s =>
    match collab.validTx txn s with
    | some e =>
      if dsConsistent (collab.matDiffs pb s) s then
        match applyDiffSetFwd (collab.matDiffs pb s) s with
        | .ok sM => some (e, appendDiffs pb (collab.matDiffs pb s), sM)
        | .err _ => none
        | .fatal _ => none
      else none
    | none =>
      match applyDiffSetFwd (collab.txnDiffs txn s) s with
      | .ok t =>
        if dsConsistent (collab.txnDiffs txn s) s then
          runFails collab tl (appendDiffs pb (collab.txnDiffs txn s)) t
        else none
      | .err _ => none
      | .fatal _ => none

/-- Executable description of a run of the transaction loop that reaches a
transaction which validates but whose application fails: returns the
application error together with the node and store state at entry to the
failing transaction. -/
def runAppFails (collab : Collaborators) :
    List Nat → ProcessedBlock → Store → Option (Err × ProcessedBlock × Store)
  | [], _, _ => none
  | txn :: tl, pb, s =>
    match collab.validTx txn s with
    | some _ => none
    | none =>
      match applyDiffSetFwd (collab.txnDiffs txn s) s with
      | .ok t => runAppFails collab tl (appendDiffs pb (collab.txnDiffs txn s)) t
      | .err e => some (e, pb, s)
      | .fatal _ => none

/-- The store with a fresh empty delayed-output bucket at the given
height. -/
def withBucket (h : Nat) (s : Store) : Store :=
  { s with DelayedSiacoinOutputs := upd s.DelayedSiacoinOutputs h (some emptyBucket) }

/-- The store with a block identifier appended as the new path tip. -/
def pushStore (bid : Nat) (s : Store) : Store :=
  { s with BlockPath := s.BlockPath ++ [bid] }

/-- Pointwise reversibility condition of a single diff of any kind against
a store (trivial for pool diffs, whose commits check their own values). -/
def anyDiffConsistent (d : AnyDiff) (dir : DiffDirection) (s : Store) : Bool :=
  match d with
  | .sco d => cSCOc dir d s.SiacoinOutputs
  | .fc d => cFCc dir d s.FileContracts
  | .sfo d => cSFOc dir d s.SiafundOutputs
  | .dsco d => cDSCOc dir d s.DelayedSiacoinOutputs
  | .pool _ => true

/- ---------------------------------------------------------------------
   Concrete states and nodes used to instantiate the theorems.
   --------------------------------------------------------------------- -/

/-- A store with no entities, an empty path and an empty block map. -/
def emptyStore : Store :=
  ⟨fun _ => none, fun _ => none, fun _ => none, fun _ => none, 0, [], fun _ => none⟩

/-- A store holding one coin output of value 5 under id 0. -/
def oneOutputStore : Store :=
  { emptyStore with SiacoinOutputs := upd emptyStore.SiacoinOutputs 0 (some 5) }

/-- A node with no diffs: block id 9, parent 5, height 3. -/
def plainNode : ProcessedBlock :=
  ⟨⟨9, []⟩, 5, 3, true, [], [], [], [], [], 0⟩

/-- The coin-output diff claiming value 7 under id 0 with the apply tag. -/
def c3CexDiff : AnyDiff := .sco ⟨.DiffApply, 0, 7⟩

/-- The coin-output diff creating value 9 under id 1. -/
def c3wDiff : AnyDiff := .sco ⟨.DiffApply, 1, 9⟩

/-- The store after committing `c3wDiff` forward on the empty store. -/
def c3wS1 : Store :=
  { emptyStore with SiacoinOutputs := upd emptyStore.SiacoinOutputs 1 (some 9) }

/-- A diff collection with no diffs. -/
def emptyDiffSet : DiffSet := ⟨[], [], [], [], []⟩

/-- The consensus set over the empty store with no known-invalid blocks. -/
def cEmpty : CState := ⟨emptyStore, fun _ => false⟩

/-- Collaborators that accept every transaction and generate no diffs. -/
def trivialCollab : Collaborators :=
  ⟨fun _ _ => none, fun _ _ => emptyDiffSet, fun _ _ => emptyDiffSet,
    fun _ _ => emptyDiffSet, fun _ => 0⟩

/-- A node whose single coin-output diff removes an absent output. -/
def c4Node : ProcessedBlock := { plainNode with SiacoinOutputDiffs := [⟨.DiffRevert, 0, 5⟩] }

/-- A node one block past the maturity window (height 145). -/
def c6Node : ProcessedBlock := { plainNode with Height := 145 }

/-- A pool diff raising the pool from 0 to 10. -/
def c7d : SiafundPoolDiff := ⟨.DiffApply, 0, 10⟩

/-- The empty store with the pool set to 10. -/
def c7wS : Store := { emptyStore with SiafundPool := 10 }

/-- The one-output store with block 9 as the chain tip. -/
def c9Store : Store := { oneOutputStore with BlockPath := [9] }

/-- A node whose single diff re-adds an output that is already present when
reverted. -/
def c9Node : ProcessedBlock := { plainNode with SiacoinOutputDiffs := [⟨.DiffRevert, 0, 3⟩] }

/-- The consensus set over `c9Store`. -/
def c9C : CState := ⟨c9Store, fun _ => false⟩

/-- The empty store with block 5 as the chain tip. -/
def c10Store : Store := { emptyStore with BlockPath := [5] }

/-- The consensus set over `c10Store`. -/
def c10C : CState := ⟨c10Store, fun _ => false⟩

/-- A block at height 1 on parent 5 carrying one transaction. -/
def c10Node : ProcessedBlock := { plainNode with Height := 1, block := ⟨9, [0]⟩ }

/-- A diff collection whose single coin-output diff removes an absent
output, so that applying it fails. -/
def c10BadDS : DiffSet := { emptyDiffSet with scods := [⟨.DiffRevert, 2, 1⟩] }

/-- Collaborators that validate every transaction but generate a failing
diff collection for it. -/
def c10Collab : Collaborators :=
  ⟨fun _ _ => none, fun _ _ => c10BadDS, fun _ _ => emptyDiffSet,
    fun _ _ => emptyDiffSet, fun _ => 0⟩

/-- The store after the initial path/bucket update of `c10Node`. -/
def c10S1 : Store :=
  withBucket (c10Node.Height + MaturityDelay) (pushStore c10Node.block.ID c10Store)

/-- A parent node whose block identifier is 5, the tip of the stores
below. -/
def c2Parent : ProcessedBlock := { plainNode with block := ⟨5, []⟩ }

/-- The one-output store with block 5 as the chain tip and block 5 mapped to
`c2Parent` in the block map. -/
def c2CexStore : Store :=
  { oneOutputStore with BlockPath := [5], BlockMap := upd oneOutputStore.BlockMap 5 (some c2Parent) }

/-- The consensus set over `c2CexStore`. -/
def c2CexC : CState := ⟨c2CexStore, fun _ => false⟩

/-- A node whose single coin-output diff is a removal (revert tag) recording
value 7 for the output stored with value 5. -/
def c2CexNode : ProcessedBlock :=
  { plainNode with SiacoinOutputDiffs := [⟨.DiffRevert, 0, 7⟩] }

/-- A node whose single coin-output diff creates output 1 with value 7. -/
def c2wNode : ProcessedBlock :=
  { plainNode with SiacoinOutputDiffs := [⟨.DiffApply, 1, 7⟩] }

/-- Collaborators that reject every transaction and generate no diffs. -/
def c1Collab : Collaborators :=
  ⟨fun _ _ => some (.validationFailed 7), fun _ _ => emptyDiffSet, fun _ _ => emptyDiffSet,
    fun _ _ => emptyDiffSet, fun _ => 0⟩

/- ---------------------------------------------------------------------
   DEFS-END
   Lemmas.
   --------------------------------------------------------------------- -/

theorem upd_apply_self {β : Type} (f : Nat → Option β) (k : Nat) (v : Option β) :
    upd f k v k = v := by
  simp [upd]

theorem upd_apply_other {β : Type} (f : Nat → Option β) (k x : Nat) (v : Option β)
    (h : ¬x = k) : upd f k v x = f x := by
  simp [upd, h]

theorem upd_upd {β : Type} (f : Nat → Option β) (k : Nat) (a b : Option β) :
    upd (upd f k a) k b = upd f k b := by
  funext x
  by_cases hx : x = k <;> simp [upd, hx]

theorem upd_eq_self {β : Type} (f : Nat → Option β) (k : Nat) (v : Option β)
    (h : f k = v) : upd f k v = f := by
  funext x
  by_cases hx : x = k <;> simp [upd, hx, h]

theorem opposite_ne (dir : DiffDirection) : ¬dir = dir.opposite := by
  cases dir <;> simp [DiffDirection.opposite]

theorem eq_opposite_of_ne {a b : DiffDirection} (h : ¬a = b) : a = b.opposite := by
  cases a <;> cases b <;> simp_all [DiffDirection.opposite]

theorem compFold_append {α γ : Type} (g : α → γ → Res γ) (l1 l2 : List α) (x : γ) :
    compFold g (l1 ++ l2) x = (compFold g l1 x).bind (compFold g l2) := by
  induction l1 generalizing x with
  | nil => simp [compFold, Res.bind]
  | cons d tl ih =>
    simp only [List.cons_append, compFold]
    cases g d x <;> simp [Res.bind, ih]

/-- Round trip of a component-level fold: a forward fold that succeeds, all
of whose steps satisfy the single-step reversibility condition, is undone
exactly by folding the reversed list with the opposite-direction action. -/
theorem compFold_roundtrip {α γ : Type} (gA gR : α → γ → Res γ) (c : α → γ → Bool)
    (hsingle : ∀ d x y, gA d x = .ok y → c d x = true → gR d y = .ok x) :
    ∀ (l : List α) (x x' : γ), compFold gA l x = .ok x' →
      checkFoldC gA c l x = true → compFold gR l.reverse x' = .ok x := by
  intro l
  induction l with
  | nil =>
    intro x x' h _
    simp only [compFold] at h
    cases h
    simp [compFold]
  | cons d tl ih =>
    intro x x' h hc
    simp only [compFold] at h
    simp only [checkFoldC, Bool.and_eq_true] at hc
    cases hg : gA d x with
    | ok y =>
      rw [hg] at h hc
      have hrev : compFold gR tl.reverse x' = .ok y := ih y x' h hc.2
      have hone : gR d y = .ok x := hsingle d x y hg hc.1
      rw [List.reverse_cons, compFold_append, hrev]
      simp [Res.bind, compFold, hone]
    | err e => rw [hg] at h; cases h
    | fatal e => rw [hg] at h; cases h

/-- Inversion of a successful bucket insert. -/
theorem dmapAdd_ok {h k v : Nat} {dm dm' : DMap} (hh : dmapAdd h k v dm = .ok dm') :
    ∃ b, dm h = some b ∧ b.m k = none ∧
      dm' = upd dm h (some ⟨upd b.m k (some v), b.sz + 1⟩) := by
  simp only [dmapAdd] at hh
  split at hh
  · cases hh
  · rename_i b hb
    split at hh
    · cases hh
    · rename_i hm
      cases hh
      exact ⟨b, hb, hm, rfl⟩

/-- Inversion of a successful bucket removal. -/
theorem dmapRemove_ok {h k : Nat} {dm dm' : DMap} (hh : dmapRemove h k dm = .ok dm') :
    ∃ b w, dm h = some b ∧ b.m k = some w ∧
      dm' = upd dm h (some ⟨upd b.m k none, b.sz - 1⟩) := by
  simp only [dmapRemove] at hh
  split at hh
  · cases hh
  · rename_i b hb
    split at hh
    · cases hh
    · rename_i w hm
      cases hh
      exact ⟨b, w, hb, hm, rfl⟩

/-- A successful bucket action leaves the bucket map pointwise updated at
the diff's maturity height only. -/
theorem dscodM_ok_shape {dir : DiffDirection} {d : DelayedSiacoinOutputDiff}
    {dm dm' : DMap} (h : dscodM dir d dm = .ok dm') :
    ∃ b0 b1, dm d.MaturityHeight = some b0 ∧
      dm' = upd dm d.MaturityHeight (some b1) := by
  simp only [dscodM] at h
  split at h
  · obtain ⟨b, hb, _, hd⟩ := dmapAdd_ok h
    exact ⟨b, _, hb, hd⟩
  · obtain ⟨b, w, hb, _, hd⟩ := dmapRemove_ok h
    exact ⟨b, _, hb, hd⟩

/-- A successful component-level fold of bucket-map actions preserves which
buckets exist. -/
theorem compFold_dscod_isSome (dir : DiffDirection) :
    ∀ (l : List DelayedSiacoinOutputDiff) (dm dm' : DMap),
      compFold (dscodM dir) l dm = .ok dm' → ∀ h, (dm' h).isSome = (dm h).isSome := by
  intro l
  induction l with
  | nil =>
    intro dm dm' h hh
    simp only [compFold] at h
    cases h
    rfl
  | cons d tl ih =>
    intro dm dm' h hh
    simp only [compFold] at h
    cases hg : dscodM dir d dm with
    | ok y =>
      rw [hg] at h
      obtain ⟨b0, b1, hb, hy⟩ := dscodM_ok_shape hg
      have step : (y hh).isSome = (dm hh).isSome := by
        subst hy
        by_cases hx : hh = d.MaturityHeight
        · subst hx; rw [upd_apply_self, hb]; rfl
        · rw [upd_apply_other _ _ _ _ hx]
      rw [ih y dm' h hh, step]
    | err e => rw [hg] at h; cases h
    | fatal e => rw [hg] at h; cases h

/-- Single-step round trip for entity diffs. -/
theorem entryM_rt (e : Err) (dd : DiffDirection) (k v : Nat) (dir : DiffDirection)
    (m m' : OMap) (h : entryM e dd k v dir m = .ok m')
    (hc : centry dd k v dir m = true) : entryM e dd k v dir.opposite m' = .ok m := by
  simp only [entryM] at h ⊢
  by_cases hdd : dd = dir
  · subst hdd
    rw [if_pos rfl] at h
    rw [if_neg (opposite_ne dd)]
    simp only [omapAdd] at h
    cases hm : m k with
    | some _ => rw [hm] at h; cases h
    | none =>
      rw [hm] at h
      cases h
      simp only [omapRemove, upd_apply_self]
      rw [upd_upd, upd_eq_self m k none hm]
  · rw [if_neg hdd] at h
    have hdd2 : dd = dir.opposite := eq_opposite_of_ne hdd
    rw [if_pos hdd2]
    simp only [omapRemove] at h
    cases hm : m k with
    | none => rw [hm] at h; cases h
    | some w =>
      rw [hm] at h
      cases h
      simp only [centry, Bool.or_eq_true, decide_eq_true_eq] at hc
      rcases hc with hc | hc
      · exact absurd hc hdd
      · rw [hm] at hc
        cases hc
        simp only [omapAdd, upd_apply_self]
        rw [upd_upd, upd_eq_self m k _ hm]

/-- Evaluation of a bucket insert whose bucket exists and whose id is
fresh. -/
theorem dmapAdd_eval {h k v : Nat} {dm : DMap} {b : Bucket}
    (hb : dm h = some b) (hm : b.m k = none) :
    dmapAdd h k v dm = .ok (upd dm h (some ⟨upd b.m k (some v), b.sz + 1⟩)) := by
  simp only [dmapAdd]
  split
  · rename_i hx; rw [hb] at hx; cases hx
  · rename_i b2 hx
    rw [hb] at hx
    cases hx
    split
    · rename_i hy; rw [hm] at hy; cases hy
    · rfl

/-- Evaluation of a bucket removal whose bucket exists and whose id is
present. -/
theorem dmapRemove_eval {h k : Nat} {dm : DMap} {b : Bucket} {w : Nat}
    (hb : dm h = some b) (hm : b.m k = some w) :
    dmapRemove h k dm = .ok (upd dm h (some ⟨upd b.m k none, b.sz - 1⟩)) := by
  simp only [dmapRemove]
  split
  · rename_i hx; rw [hb] at hx; cases hx
  · rename_i b2 hx
    rw [hb] at hx
    cases hx
    split
    · rename_i hy; rw [hm] at hy; cases hy
    · rfl

/-- Single-step round trip for delayed-output diffs. -/
theorem dscodM_rt (dir : DiffDirection) (d : DelayedSiacoinOutputDiff)
    (dm dm' : DMap) (h : dscodM dir d dm = .ok dm')
    (hc : cDSCOc dir d dm = true) : dscodM dir.opposite d dm' = .ok dm := by
  simp only [dscodM] at h ⊢
  by_cases hdd : d.Direction = dir
  · rw [if_pos hdd] at h
    have hne : ¬d.Direction = dir.opposite := by rw [hdd]; exact opposite_ne dir
    rw [if_neg hne]
    obtain ⟨b, hb, hm, hd⟩ := dmapAdd_ok h
    subst hd
    have hb2 : upd dm d.MaturityHeight (some ⟨upd b.m d.ID (some d.SiacoinOutput), b.sz + 1⟩)
        d.MaturityHeight = some ⟨upd b.m d.ID (some d.SiacoinOutput), b.sz + 1⟩ :=
      upd_apply_self _ _ _
    have hm2 : (Bucket.mk (upd b.m d.ID (some d.SiacoinOutput)) (b.sz + 1)).m d.ID
        = some d.SiacoinOutput := upd_apply_self _ _ _
    rw [dmapRemove_eval hb2 hm2, upd_upd]
    have h1 : upd (Bucket.mk (upd b.m d.ID (some d.SiacoinOutput)) (b.sz + 1)).m d.ID none
        = b.m := by
      show upd (upd b.m d.ID (some d.SiacoinOutput)) d.ID none = b.m
      rw [upd_upd]
      exact upd_eq_self _ _ _ hm
    rw [h1]
    have h2 : (Bucket.mk (upd b.m d.ID (some d.SiacoinOutput)) (b.sz + 1)).sz - 1 = b.sz := by
      show b.sz + 1 - 1 = b.sz
      omega
    rw [h2]
    rw [upd_eq_self dm _ _ hb]
  · rw [if_neg hdd] at h
    have hdd2 : d.Direction = dir.opposite := eq_opposite_of_ne hdd
    rw [if_pos hdd2]
    obtain ⟨b, w, hb, hm, hd⟩ := dmapRemove_ok h
    simp only [cDSCOc, Bool.or_eq_true, decide_eq_true_eq] at hc
    rcases hc with hc | hc
    · exact absurd hc hdd
    · rw [hb, Option.some_bind] at hc
      rw [hm] at hc
      cases hc
      subst hd
      have hb2 : upd dm d.MaturityHeight (some ⟨upd b.m d.ID none, b.sz - 1⟩)
          d.MaturityHeight = some ⟨upd b.m d.ID none, b.sz - 1⟩ := upd_apply_self _ _ _
      have hm2 : (Bucket.mk (upd b.m d.ID none) (b.sz - 1)).m d.ID = none :=
        upd_apply_self _ _ _
      rw [dmapAdd_eval hb2 hm2, upd_upd]
      have h1 : upd (Bucket.mk (upd b.m d.ID none) (b.sz - 1)).m d.ID (some d.SiacoinOutput)
          = b.m := by
        show upd (upd b.m d.ID none) d.ID (some d.SiacoinOutput) = b.m
        rw [upd_upd]
        exact upd_eq_self _ _ _ hm
      rw [h1]
      have h2 : (Bucket.mk (upd b.m d.ID none) (b.sz - 1)).sz + 1 = b.sz := by
        show b.sz - 1 + 1 = b.sz
        omega
      rw [h2]
      rw [upd_eq_self dm _ _ hb]

/-- Single-step round trip for pool diffs: success of the first commit
already encodes every value check. -/
theorem sfpdM_rt (dir : DiffDirection) (d : SiafundPoolDiff) (p q : Nat)
    (h : sfpdM dir d p = .ok q) : sfpdM dir.opposite d q = .ok p := by
  cases dir with
  | DiffApply =>
    by_cases h1 : d.Adjusted < d.Previous
    · simp [sfpdM, DEBUG, h1] at h
    · by_cases h2 : d.Direction = DiffDirection.DiffApply
      · by_cases h3 : p = d.Previous
        · simp only [sfpdM, DEBUG, h1, h2, h3] at h
          simp only [DiffDirection.opposite, sfpdM, DEBUG, h1, h2]
          simp at h
          simp [← h, h3]
        · simp [sfpdM, DEBUG, h1, h2, h3] at h
      · simp [sfpdM, DEBUG, h1, h2] at h
  | DiffRevert =>
    by_cases h1 : d.Adjusted < d.Previous
    · simp [sfpdM, DEBUG, h1] at h
    · by_cases h2 : d.Direction = DiffDirection.DiffApply
      · by_cases h3 : p = d.Adjusted
        · simp only [sfpdM, DEBUG, h1, h2, h3] at h
          simp only [DiffDirection.opposite, sfpdM, DEBUG, h1, h2]
          simp at h
          simp [← h, h3]
        · simp [sfpdM, DEBUG, h1, h2, h3] at h
      · simp [sfpdM, DEBUG, h1, h2] at h

/-- Store-level coin-output commit is the componentwise action lifted. -/
theorem commitSCOD_comp (d : SiacoinOutputDiff) (dir : DiffDirection) (s : Store) :
    commitSiacoinOutputDiff d dir s
      = liftRes (scodM dir d s.SiacoinOutputs) (fun m => { s with SiacoinOutputs := m }) := by
  simp only [commitSiacoinOutputDiff, scodM, entryM]
  by_cases hd : d.Direction = dir
  · rw [if_pos hd, if_pos hd]
    simp only [addSiacoinOutput, omapAdd, liftRes]
    cases s.SiacoinOutputs d.ID <;> rfl
  · rw [if_neg hd, if_neg hd]
    simp only [removeSiacoinOutput, omapRemove, liftRes]
    cases s.SiacoinOutputs d.ID <;> rfl

/-- Store-level file-contract commit is the componentwise action lifted. -/
theorem commitFCD_comp (d : FileContractDiff) (dir : DiffDirection) (s : Store) :
    commitFileContractDiff d dir s
      = liftRes (fcdM dir d s.FileContracts) (fun m => { s with FileContracts := m }) := by
  simp only [commitFileContractDiff, fcdM, entryM]
  by_cases hd : d.Direction = dir
  · rw [if_pos hd, if_pos hd]
    simp only [addFileContract, omapAdd, liftRes]
    cases s.FileContracts d.ID <;> rfl
  · rw [if_neg hd, if_neg hd]
    simp only [removeFileContract, omapRemove, liftRes]
    cases s.FileContracts d.ID <;> rfl

/-- Store-level siafund-output commit is the componentwise action lifted. -/
theorem commitSFOD_comp (d : SiafundOutputDiff) (dir : DiffDirection) (s : Store) :
    commitSiafundOutputDiff d dir s
      = liftRes (sfodM dir d s.SiafundOutputs) (fun m => { s with SiafundOutputs := m }) := by
  simp only [commitSiafundOutputDiff, sfodM, entryM]
  by_cases hd : d.Direction = dir
  · rw [if_pos hd, if_pos hd]
    simp only [addSiafundOutput, omapAdd, liftRes]
    cases s.SiafundOutputs d.ID <;> rfl
  · rw [if_neg hd, if_neg hd]
    simp only [removeSiafundOutput, omapRemove, liftRes]
    cases s.SiafundOutputs d.ID <;> rfl

/-- Store-level delayed-output commit is the componentwise action lifted. -/
theorem commitDSCOD_comp (d : DelayedSiacoinOutputDiff) (dir : DiffDirection) (s : Store) :
    commitDelayedSiacoinOutputDiff d dir s
      = liftRes (dscodM dir d s.DelayedSiacoinOutputs)
          (fun dm => { s with DelayedSiacoinOutputs := dm }) := by
  simp only [commitDelayedSiacoinOutputDiff, dscodM]
  by_cases hd : d.Direction = dir
  · rw [if_pos hd, if_pos hd]
    cases hb : s.DelayedSiacoinOutputs d.MaturityHeight with
    | none => simp [addDSCO, dmapAdd, liftRes, hb]
    | some b => cases hm : b.m d.ID <;> simp [addDSCO, dmapAdd, liftRes, hb, hm]
  · rw [if_neg hd, if_neg hd]
    cases hb : s.DelayedSiacoinOutputs d.MaturityHeight with
    | none => simp [removeDSCO, dmapRemove, liftRes, hb]
    | some b => cases hm : b.m d.ID <;> simp [removeDSCO, dmapRemove, liftRes, hb, hm]

/-- Store-level pool commit is the componentwise action lifted. -/
theorem commitSFPD_comp (d : SiafundPoolDiff) (dir : DiffDirection) (s : Store) :
    commitSiafundPoolDiff d dir s
      = liftRes (sfpdM dir d s.SiafundPool) (fun p => { s with SiafundPool := p }) := by
  simp only [commitSiafundPoolDiff, sfpdM, getSiafundPool, setSiafundPool]
  cases dir <;> split_ifs <;> rfl

/-- A store-level commit loop is the componentwise fold lifted, for any
field lens. -/
theorem commitEach_over {α γ : Type} (get : Store → γ) (set : γ → Store → Store)
    (hset2 : ∀ x y s, set y (set x s) = set y s)
    (hid : ∀ s, set (get s) s = s)
    (hget : ∀ x s, get (set x s) = x)
    (g : α → γ → Res γ) (f : α → Store → Res Store)
    (hf : ∀ d s, f d s = liftRes (g d (get s)) (fun x => set x s)) :
    ∀ (l : List α) (s : Store),
      commitEach f l s = liftRes (compFold g l (get s)) (fun x => set x s) := by
  intro l
  induction l with
  | nil => intro s; simp [commitEach, compFold, liftRes, hid]
  | cons d tl ih =>
    intro s
    simp only [commitEach, compFold, hf]
    cases hg : g d (get s) with
    | ok x =>
      simp only [liftRes]
      rw [ih (set x s), hget]
      have hfun : (fun y => set y (set x s)) = fun y => set y s :=
        funext (fun y => hset2 x y s)
      rw [hfun]
      cases compFold g tl x <;> rfl
    | err e => simp [liftRes]
    | fatal e => simp [liftRes]

/-- The coin-output loop, componentwise. -/
theorem commitEach_scod (dir : DiffDirection) (l : List SiacoinOutputDiff) (s : Store) :
    commitEach (fun d => commitSiacoinOutputDiff d dir) l s
      = liftRes (compFold (scodM dir) l s.SiacoinOutputs)
          (fun m => { s with SiacoinOutputs := m }) :=
  commitEach_over (fun s => s.SiacoinOutputs) (fun m s => { s with SiacoinOutputs := m })
    (fun _ _ _ => rfl) (fun _ => rfl) (fun _ _ => rfl) (scodM dir)
    (fun d => commitSiacoinOutputDiff d dir) (fun d s => commitSCOD_comp d dir s) l s

/-- The file-contract loop, componentwise. -/
theorem commitEach_fcd (dir : DiffDirection) (l : List FileContractDiff) (s : Store) :
    commitEach (fun d => commitFileContractDiff d dir) l s
      = liftRes (compFold (fcdM dir) l s.FileContracts)
          (fun m => { s with FileContracts := m }) :=
  commitEach_over (fun s => s.FileContracts) (fun m s => { s with FileContracts := m })
    (fun _ _ _ => rfl) (fun _ => rfl) (fun _ _ => rfl) (fcdM dir)
    (fun d => commitFileContractDiff d dir) (fun d s => commitFCD_comp d dir s) l s

/-- The siafund-output loop, componentwise. -/
theorem commitEach_sfod (dir : DiffDirection) (l : List SiafundOutputDiff) (s : Store) :
    commitEach (fun d => commitSiafundOutputDiff d dir) l s
      = liftRes (compFold (sfodM dir) l s.SiafundOutputs)
          (fun m => { s with SiafundOutputs := m }) :=
  commitEach_over (fun s => s.SiafundOutputs) (fun m s => { s with SiafundOutputs := m })
    (fun _ _ _ => rfl) (fun _ => rfl) (fun _ _ => rfl) (sfodM dir)
    (fun d => commitSiafundOutputDiff d dir) (fun d s => commitSFOD_comp d dir s) l s

/-- The delayed-output loop, componentwise. -/
theorem commitEach_dscod (dir : DiffDirection) (l : List DelayedSiacoinOutputDiff) (s : Store) :
    commitEach (fun d => commitDelayedSiacoinOutputDiff d dir) l s
      = liftRes (compFold (dscodM dir) l s.DelayedSiacoinOutputs)
          (fun dm => { s with DelayedSiacoinOutputs := dm }) :=
  commitEach_over (fun s => s.DelayedSiacoinOutputs)
    (fun dm s => { s with DelayedSiacoinOutputs := dm })
    (fun _ _ _ => rfl) (fun _ => rfl) (fun _ _ => rfl) (dscodM dir)
    (fun d => commitDelayedSiacoinOutputDiff d dir) (fun d s => commitDSCOD_comp d dir s) l s

/-- The pool loop, componentwise. -/
theorem commitEach_sfpd (dir : DiffDirection) (l : List SiafundPoolDiff) (s : Store) :
    commitEach (fun d => commitSiafundPoolDiff d dir) l s
      = liftRes (compFold (sfpdM dir) l s.SiafundPool)
          (fun p => { s with SiafundPool := p }) :=
  commitEach_over (fun s => s.SiafundPool) (fun p s => { s with SiafundPool := p })
    (fun _ _ _ => rfl) (fun _ => rfl) (fun _ _ => rfl) (sfpdM dir)
    (fun d => commitSiafundPoolDiff d dir) (fun d s => commitSFPD_comp d dir s) l s

/-- Chaining the five componentwise loops gives the canonical componentwise
form. -/
theorem chain_eq_storeFolds (dir : DiffDirection) (l1 : List SiacoinOutputDiff)
    (l2 : List FileContractDiff) (l3 : List SiafundOutputDiff)
    (l4 : List DelayedSiacoinOutputDiff) (l5 : List SiafundPoolDiff) (s : Store) :
    ((commitEach (fun d => commitSiacoinOutputDiff d dir) l1 s).bind fun s1 =>
      (commitEach (fun d => commitFileContractDiff d dir) l2 s1).bind fun s2 =>
      (commitEach (fun d => commitSiafundOutputDiff d dir) l3 s2).bind fun s3 =>
      (commitEach (fun d => commitDelayedSiacoinOutputDiff d dir) l4 s3).bind fun s4 =>
      commitEach (fun d => commitSiafundPoolDiff d dir) l5 s4)
      = storeFolds dir l1 l2 l3 l4 l5 s := by
  rw [commitEach_scod]
  simp only [storeFolds]
  cases h1 : compFold (scodM dir) l1 s.SiacoinOutputs <;>
    simp only [liftRes, Res.bind]
  rw [commitEach_fcd]
  dsimp only
  cases h2 : compFold (fcdM dir) l2 s.FileContracts <;>
    simp only [liftRes, Res.bind]
  rw [commitEach_sfod]
  dsimp only
  cases h3 : compFold (sfodM dir) l3 s.SiafundOutputs <;>
    simp only [liftRes, Res.bind]
  rw [commitEach_dscod]
  dsimp only
  cases h4 : compFold (dscodM dir) l4 s.DelayedSiacoinOutputs <;>
    simp only [liftRes, Res.bind]
  rw [commitEach_sfpd]
  dsimp only
  cases h5 : compFold (sfpdM dir) l5 s.SiafundPool <;>
    simp only [liftRes, Res.bind]

/-- commitNodeDiffsTx in the apply direction, componentwise. -/
theorem commitNodeDiffsTx_apply_eq (pb : ProcessedBlock) (s : Store) :
    commitNodeDiffsTx pb .DiffApply s
      = storeFolds .DiffApply pb.SiacoinOutputDiffs pb.FileContractDiffs
          pb.SiafundOutputDiffs pb.DelayedSiacoinOutputDiffs pb.SiafundPoolDiffs s := by
  rw [← chain_eq_storeFolds]
  simp only [commitNodeDiffsTx]

/-- commitNodeDiffsTx in the revert direction, componentwise: the same
category order over the reversed collections. -/
theorem commitNodeDiffsTx_revert_eq (pb : ProcessedBlock) (s : Store) :
    commitNodeDiffsTx pb .DiffRevert s
      = storeFolds .DiffRevert pb.SiacoinOutputDiffs.reverse pb.FileContractDiffs.reverse
          pb.SiafundOutputDiffs.reverse pb.DelayedSiacoinOutputDiffs.reverse
          pb.SiafundPoolDiffs.reverse s := by
  rw [← chain_eq_storeFolds]
  simp only [commitNodeDiffsTx]

/-- applyDiffSetFwd, componentwise. -/
theorem applyDiffSetFwd_eq (ds : DiffSet) (s : Store) :
    applyDiffSetFwd ds s
      = storeFolds .DiffApply ds.scods ds.fcds ds.sfods ds.dscods ds.sfpds s := by
  rw [← chain_eq_storeFolds]
  rfl

/-- The trivial pointwise condition always checks. -/
theorem checkFoldC_true {α γ : Type} (g : α → γ → Res γ) :
    ∀ (l : List α) (x : γ), checkFoldC g (fun _ _ => true) l x = true := by
  intro l
  induction l with
  | nil => intro x; rfl
  | cons d tl ih =>
    intro x
    simp only [checkFoldC]
    cases g d x <;> simp [ih]

/-- Decomposition of a successful componentwise commit of five diff
collections: each component is the result of its own fold, and the path and
block map are untouched. -/
theorem storeFolds_ok_inv {dir : DiffDirection} {l1 : List SiacoinOutputDiff}
    {l2 : List FileContractDiff} {l3 : List SiafundOutputDiff}
    {l4 : List DelayedSiacoinOutputDiff} {l5 : List SiafundPoolDiff} {s s' : Store}
    (h : storeFolds dir l1 l2 l3 l4 l5 s = .ok s') :
    compFold (scodM dir) l1 s.SiacoinOutputs = .ok s'.SiacoinOutputs ∧
    compFold (fcdM dir) l2 s.FileContracts = .ok s'.FileContracts ∧
    compFold (sfodM dir) l3 s.SiafundOutputs = .ok s'.SiafundOutputs ∧
    compFold (dscodM dir) l4 s.DelayedSiacoinOutputs = .ok s'.DelayedSiacoinOutputs ∧
    compFold (sfpdM dir) l5 s.SiafundPool = .ok s'.SiafundPool ∧
    s'.BlockPath = s.BlockPath ∧ s'.BlockMap = s.BlockMap := by
  simp only [storeFolds] at h
  split at h
  · exact Res.noConfusion h
  · exact Res.noConfusion h
  · rename_i m1 h1
    split at h
    · exact Res.noConfusion h
    · exact Res.noConfusion h
    · rename_i m2 h2
      split at h
      · exact Res.noConfusion h
      · exact Res.noConfusion h
      · rename_i m3 h3
        split at h
        · exact Res.noConfusion h
        · exact Res.noConfusion h
        · rename_i m4 h4
          split at h
          · exact Res.noConfusion h
          · exact Res.noConfusion h
          · rename_i p5 h5
            cases h
            exact ⟨h1, h2, h3, h4, h5, rfl, rfl⟩

/-- Construction of a componentwise commit from its five component folds. -/
theorem storeFolds_ok_build {dir : DiffDirection} {l1 : List SiacoinOutputDiff}
    {l2 : List FileContractDiff} {l3 : List SiafundOutputDiff}
    {l4 : List DelayedSiacoinOutputDiff} {l5 : List SiafundPoolDiff} {s : Store}
    {m1 m2 m3 : OMap} {m4 : DMap} {p5 : Nat}
    (h1 : compFold (scodM dir) l1 s.SiacoinOutputs = .ok m1)
    (h2 : compFold (fcdM dir) l2 s.FileContracts = .ok m2)
    (h3 : compFold (sfodM dir) l3 s.SiafundOutputs = .ok m3)
    (h4 : compFold (dscodM dir) l4 s.DelayedSiacoinOutputs = .ok m4)
    (h5 : compFold (sfpdM dir) l5 s.SiafundPool = .ok p5) :
    storeFolds dir l1 l2 l3 l4 l5 s = .ok { s with SiacoinOutputs := m1, FileContracts := m2, SiafundOutputs := m3, DelayedSiacoinOutputs := m4, SiafundPool := p5 } := by
  simp only [storeFolds, h1, h2, h3, h4, h5]

/-- Round trip of the componentwise commit: forward apply of five diff
collections followed by the revert-direction commit of the reversed
collections restores the store exactly, given the pointwise reversibility
conditions. -/
theorem storeFolds_rt {l1 : List SiacoinOutputDiff} {l2 : List FileContractDiff}
    {l3 : List SiafundOutputDiff} {l4 : List DelayedSiacoinOutputDiff}
    {l5 : List SiafundPoolDiff} {s s' : Store}
    (h : storeFolds .DiffApply l1 l2 l3 l4 l5 s = .ok s')
    (hc1 : checkFoldC (scodM .DiffApply) (cSCOc .DiffApply) l1 s.SiacoinOutputs = true)
    (hc2 : checkFoldC (fcdM .DiffApply) (cFCc .DiffApply) l2 s.FileContracts = true)
    (hc3 : checkFoldC (sfodM .DiffApply) (cSFOc .DiffApply) l3 s.SiafundOutputs = true)
    (hc4 : checkFoldC (dscodM .DiffApply) (cDSCOc .DiffApply) l4 s.DelayedSiacoinOutputs = true) :
    storeFolds .DiffRevert l1.reverse l2.reverse l3.reverse l4.reverse l5.reverse s' = .ok s := by
  obtain ⟨h1, h2, h3, h4, h5, hp, hm⟩ := storeFolds_ok_inv h
  have r1 : compFold (scodM .DiffRevert) l1.reverse s'.SiacoinOutputs = .ok s.SiacoinOutputs :=
    compFold_roundtrip (scodM .DiffApply) (scodM .DiffRevert) (cSCOc .DiffApply)
      (fun d x y hh hcc => entryM_rt _ _ _ _ _ _ _ hh hcc) l1 _ _ h1 hc1
  have r2 : compFold (fcdM .DiffRevert) l2.reverse s'.FileContracts = .ok s.FileContracts :=
    compFold_roundtrip (fcdM .DiffApply) (fcdM .DiffRevert) (cFCc .DiffApply)
      (fun d x y hh hcc => entryM_rt _ _ _ _ _ _ _ hh hcc) l2 _ _ h2 hc2
  have r3 : compFold (sfodM .DiffRevert) l3.reverse s'.SiafundOutputs = .ok s.SiafundOutputs :=
    compFold_roundtrip (sfodM .DiffApply) (sfodM .DiffRevert) (cSFOc .DiffApply)
      (fun d x y hh hcc => entryM_rt _ _ _ _ _ _ _ hh hcc) l3 _ _ h3 hc3
  have r4 : compFold (dscodM .DiffRevert) l4.reverse s'.DelayedSiacoinOutputs = .ok s.DelayedSiacoinOutputs :=
    compFold_roundtrip (dscodM .DiffApply) (dscodM .DiffRevert) (cDSCOc .DiffApply)
      (fun d x y hh hcc => dscodM_rt _ _ _ _ hh hcc) l4 _ _ h4 hc4
  have r5 : compFold (sfpdM .DiffRevert) l5.reverse s'.SiafundPool = .ok s.SiafundPool :=
    compFold_roundtrip (sfpdM .DiffApply) (sfpdM .DiffRevert) (fun _ _ => true)
      (fun d x y hh _ => sfpdM_rt _ _ _ _ hh) l5 _ _ h5 (checkFoldC_true _ l5 _)
  exact (storeFolds_ok_build r1 r2 r3 r4 r5).trans
    (congrArg Res.ok (Store.ext rfl rfl rfl rfl rfl hp hm))

/-- A successful commit of a node's diffs leaves the path and block map
untouched. -/
theorem nodeTx_ok_path {pb : ProcessedBlock} {dir : DiffDirection} {s s' : Store}
    (h : commitNodeDiffsTx pb dir s = .ok s') :
    s'.BlockPath = s.BlockPath ∧ s'.BlockMap = s.BlockMap := by
  cases dir with
  | DiffApply =>
    rw [commitNodeDiffsTx_apply_eq] at h
    exact (storeFolds_ok_inv h).2.2.2.2.2
  | DiffRevert =>
    rw [commitNodeDiffsTx_revert_eq] at h
    exact (storeFolds_ok_inv h).2.2.2.2.2

/-- Round trip of commitNodeDiffsTx: applying a consistent node's diffs and
then reverting them restores the store exactly. -/
theorem nodeTx_rt {pb : ProcessedBlock} {s s' : Store}
    (h : commitNodeDiffsTx pb .DiffApply s = .ok s')
    (hc : nodeConsistent pb s = true) :
    commitNodeDiffsTx pb .DiffRevert s' = .ok s := by
  rw [commitNodeDiffsTx_apply_eq] at h
  rw [commitNodeDiffsTx_revert_eq]
  simp only [nodeConsistent, Bool.and_eq_true] at hc
  exact storeFolds_rt h hc.1.1.1 hc.1.1.2 hc.1.2 hc.2

/-- Extending a revert invariant across one more consistently applied diff
collection: if reverting a node's diffs from store s recovers s1, and a
consistent diff collection is applied forward taking s to t, then reverting
the extended node from t still recovers s1. -/
theorem nodeTx_rt_extend {pb : ProcessedBlock} {ds : DiffSet} {s s1 t : Store}
    (hInv : commitNodeDiffsTx pb .DiffRevert s = .ok s1)
    (hap : applyDiffSetFwd ds s = .ok t)
    (hc : dsConsistent ds s = true) :
    commitNodeDiffsTx (appendDiffs pb ds) .DiffRevert t = .ok s1 := by
  rw [commitNodeDiffsTx_revert_eq] at hInv ⊢
  rw [applyDiffSetFwd_eq] at hap
  obtain ⟨a1, a2, a3, a4, a5, ap, am⟩ := storeFolds_ok_inv hap
  obtain ⟨b1, b2, b3, b4, b5, bp, bm⟩ := storeFolds_ok_inv hInv
  simp only [dsConsistent, Bool.and_eq_true] at hc
  have r1 : compFold (scodM .DiffRevert) (pb.SiacoinOutputDiffs ++ ds.scods).reverse
      t.SiacoinOutputs = .ok s1.SiacoinOutputs := by
    rw [List.reverse_append, compFold_append]
    rw [compFold_roundtrip (scodM .DiffApply) (scodM .DiffRevert) (cSCOc .DiffApply)
      (fun d x y hh hcc => entryM_rt _ _ _ _ _ _ _ hh hcc) ds.scods _ _ a1 hc.1.1.1]
    simpa [Res.bind] using b1
  have r2 : compFold (fcdM .DiffRevert) (pb.FileContractDiffs ++ ds.fcds).reverse
      t.FileContracts = .ok s1.FileContracts := by
    rw [List.reverse_append, compFold_append]
    rw [compFold_roundtrip (fcdM .DiffApply) (fcdM .DiffRevert) (cFCc .DiffApply)
      (fun d x y hh hcc => entryM_rt _ _ _ _ _ _ _ hh hcc) ds.fcds _ _ a2 hc.1.1.2]
    simpa [Res.bind] using b2
  have r3 : compFold (sfodM .DiffRevert) (pb.SiafundOutputDiffs ++ ds.sfods).reverse
      t.SiafundOutputs = .ok s1.SiafundOutputs := by
    rw [List.reverse_append, compFold_append]
    rw [compFold_roundtrip (sfodM .DiffApply) (sfodM .DiffRevert) (cSFOc .DiffApply)
      (fun d x y hh hcc => entryM_rt _ _ _ _ _ _ _ hh hcc) ds.sfods _ _ a3 hc.1.2]
    simpa [Res.bind] using b3
  have r4 : compFold (dscodM .DiffRevert) (pb.DelayedSiacoinOutputDiffs ++ ds.dscods).reverse
      t.DelayedSiacoinOutputs = .ok s1.DelayedSiacoinOutputs := by
    rw [List.reverse_append, compFold_append]
    rw [compFold_roundtrip (dscodM .DiffApply) (dscodM .DiffRevert) (cDSCOc .DiffApply)
      (fun d x y hh hcc => dscodM_rt _ _ _ _ hh hcc) ds.dscods _ _ a4 hc.2]
    simpa [Res.bind] using b4
  have r5 : compFold (sfpdM .DiffRevert) (pb.SiafundPoolDiffs ++ ds.sfpds).reverse
      t.SiafundPool = .ok s1.SiafundPool := by
    rw [List.reverse_append, compFold_append]
    rw [compFold_roundtrip (sfpdM .DiffApply) (sfpdM .DiffRevert) (fun _ _ => true)
      (fun d x y hh _ => sfpdM_rt _ _ _ _ hh) ds.sfpds _ _ a5 (checkFoldC_true _ ds.sfpds _)]
    simpa [Res.bind] using b5
  exact (storeFolds_ok_build r1 r2 r3 r4 r5).trans
    (congrArg Res.ok (Store.ext rfl rfl rfl rfl rfl (ap.trans bp.symm) (am.trans bm.symm)))

/- ---------------------------------------------------------------------
   Evaluation and inversion lemmas for the pieces of commitDiffSet.
   --------------------------------------------------------------------- -/

theorem sanity_revert_ok {pb : ProcessedBlock} {c : CState}
    (hDG : pb.DiffsGenerated = true) (hcur : currentBlockID c.db = pb.block.ID) :
    commitDiffSetSanity pb .DiffRevert c = .ok () := by
  simp [commitDiffSetSanity, DEBUG, hDG, hcur]

theorem sanity_apply_ok {pb : ProcessedBlock} {c : CState} {par : ProcessedBlock}
    (hDG : pb.DiffsGenerated = true) (hpar : c.db.BlockMap pb.Parent = some par)
    (hid : par.block.ID = currentBlockID c.db) :
    commitDiffSetSanity pb .DiffApply c = .ok () := by
  simp [commitDiffSetSanity, DEBUG, hDG, hpar, hid]

theorem sanity_ok_inv {pb : ProcessedBlock} {dir : DiffDirection} {c : CState}
    (h : commitDiffSetSanity pb dir c = .ok ()) :
    pb.DiffsGenerated = true ∧
    (dir = .DiffRevert → pb.block.ID = currentBlockID c.db) ∧
    (dir = .DiffApply → ∃ par, c.db.BlockMap pb.Parent = some par ∧
      par.block.ID = currentBlockID c.db) := by
  have hD : (DEBUG : Prop) := rfl
  simp only [commitDiffSetSanity, if_pos hD] at h
  split at h
  · exact Res.noConfusion h
  · rename_i hDG
    have hDG2 : pb.DiffsGenerated = true := not_not.mp hDG
    split at h
    · split at h
      · exact Res.noConfusion h
      · rename_i par hpar
        split at h
        · exact Res.noConfusion h
        · rename_i hid
          exact ⟨hDG2, fun hx => absurd hx (by decide), fun _ => ⟨par, hpar, not_not.mp hid⟩⟩
    · split at h
      · exact Res.noConfusion h
      · rename_i hid
        exact ⟨hDG2, fun _ => not_not.mp hid, fun hx => absurd hx (by decide)⟩

theorem commitDiffSet_ok_sanity {pb : ProcessedBlock} {dir : DiffDirection} {c c' : CState}
    (h : commitDiffSet pb dir c = (.ok (), c')) :
    commitDiffSetSanity pb dir c = .ok () := by
  simp only [commitDiffSet] at h
  split at h
  · exact Res.noConfusion (congrArg Prod.fst h)
  · exact Res.noConfusion (congrArg Prod.fst h)
  · rename_i u hu
    cases u
    exact hu

theorem createDSCOBucket_present {h : Nat} {s : Store}
    (hb : (s.DelayedSiacoinOutputs h).isSome = true) : createDSCOBucket h s = .ok s := by
  simp only [createDSCOBucket]
  cases hq : s.DelayedSiacoinOutputs h with
  | some b => rfl
  | none => rw [hq] at hb; cases hb

theorem createDSCOBucket_absent {h : Nat} {s : Store}
    (hb : s.DelayedSiacoinOutputs h = none) :
    createDSCOBucket h s = .ok (withBucket h s) := by
  simp [createDSCOBucket, hb, withBucket]

theorem createDSCOBucket_shape {h : Nat} {s t : Store} (hc : createDSCOBucket h s = .ok t) :
    t = s ∨ t = withBucket h s := by
  simp only [createDSCOBucket] at hc
  split at hc
  · cases hc; exact Or.inl rfl
  · cases hc; exact Or.inr rfl

theorem createUpcoming_apply_absent {pb : ProcessedBlock} {s : Store}
    (h3 : s.DelayedSiacoinOutputs (pb.Height + MaturityDelay) = none) :
    createUpcomingDelayedOutputMaps pb .DiffApply s
      = .ok (withBucket (pb.Height + MaturityDelay) s) := by
  simp only [createUpcomingDelayedOutputMaps]
  exact createDSCOBucket_absent h3

theorem createUpcoming_revert_noop {pb : ProcessedBlock} {s : Store}
    (hb : MaturityDelay < pb.Height → (s.DelayedSiacoinOutputs pb.Height).isSome = true) :
    createUpcomingDelayedOutputMaps pb .DiffRevert s = .ok s := by
  simp only [createUpcomingDelayedOutputMaps]
  by_cases hH : MaturityDelay < pb.Height
  · rw [if_pos hH]
    exact createDSCOBucket_present (hb hH)
  · rw [if_neg hH]

theorem createUpcoming_revert_create {pb : ProcessedBlock} {s : Store}
    (hH : MaturityDelay < pb.Height) (hb : s.DelayedSiacoinOutputs pb.Height = none) :
    createUpcomingDelayedOutputMaps pb .DiffRevert s = .ok (withBucket pb.Height s) := by
  simp only [createUpcomingDelayedOutputMaps]
  rw [if_pos hH]
  exact createDSCOBucket_absent hb

theorem deleteObsolete_apply_high {pb : ProcessedBlock} {s : Store}
    (hH : MaturityDelay < pb.Height) (hlen : lenDelayedSiacoinOutputsHeight pb.Height s = 0) :
    deleteObsoleteDelayedOutputMaps pb .DiffApply s
      = .ok (rmDelayedSiacoinOutputs pb.Height s) := by
  simp only [deleteObsoleteDelayedOutputMaps]
  rw [if_pos hH, if_neg (fun hx => hx.2 hlen)]

theorem deleteObsolete_apply_low {pb : ProcessedBlock} {s : Store}
    (hH : ¬MaturityDelay < pb.Height) :
    deleteObsoleteDelayedOutputMaps pb .DiffApply s = .ok s := by
  simp only [deleteObsoleteDelayedOutputMaps]
  rw [if_neg hH]

theorem deleteObsolete_revert_eval {pb : ProcessedBlock} {s : Store}
    (hlen : lenDelayedSiacoinOutputsHeight (pb.Height + MaturityDelay) s = 0) :
    deleteObsoleteDelayedOutputMaps pb .DiffRevert s
      = .ok (rmDelayedSiacoinOutputs (pb.Height + MaturityDelay) s) := by
  simp only [deleteObsoleteDelayedOutputMaps]
  rw [if_neg (fun hx => hx.2 hlen)]

theorem popPath_eval {s : Store} (h : ¬s.BlockPath = []) :
    popPath s = .ok { s with BlockPath := s.BlockPath.dropLast } := by
  simp only [popPath]
  split
  · rename_i hq; exact absurd hq h
  · rfl

theorem updatePath_apply_eval (pb : ProcessedBlock) (s : Store) :
    updateCurrentPath pb .DiffApply s = .ok (pushStore pb.block.ID s) := by
  simp [updateCurrentPath, pushPath, pushStore]

theorem updatePath_revert_eval {pb : ProcessedBlock} {s : Store} (h : ¬s.BlockPath = []) :
    updateCurrentPath pb .DiffRevert s = .ok { s with BlockPath := s.BlockPath.dropLast } := by
  simp only [updateCurrentPath]
  rw [popPath_eval h]

/-- Full evaluation of commitDiffSet from evaluations of its pieces. -/
theorem commitDiffSet_eval {pb : ProcessedBlock} {dir : DiffDirection} {c : CState}
    {t u v w : Store}
    (hsan : commitDiffSetSanity pb dir c = .ok ())
    (hcre : createUpcomingDelayedOutputMaps pb dir c.db = .ok t)
    (hnd : commitNodeDiffsTx pb dir t = .ok u)
    (hdel : deleteObsoleteDelayedOutputMaps pb dir u = .ok v)
    (hupd : updateCurrentPath pb dir v = .ok w) :
    commitDiffSet pb dir c = (.ok (), { c with db := w }) := by
  simp only [commitDiffSet, hsan, dbUpdate, hcre, commitNodeDiffs, hnd, deleteAndPath,
    hdel, hupd]

/-- Shape of a successful bucket-map cleanup. -/
theorem deleteObsolete_shape {pb : ProcessedBlock} {dir : DiffDirection} {s v : Store}
    (h : deleteObsoleteDelayedOutputMaps pb dir s = .ok v) :
    v = s ∨ ∃ hh, lenDelayedSiacoinOutputsHeight hh s = 0 ∧ v = rmDelayedSiacoinOutputs hh s := by
  cases dir with
  | DiffApply =>
    by_cases hH : MaturityDelay < pb.Height
    · by_cases hL : DEBUG = true ∧ ¬lenDelayedSiacoinOutputsHeight pb.Height s = 0
      · simp only [deleteObsoleteDelayedOutputMaps, if_pos hH, if_pos hL] at h
        exact Res.noConfusion h
      · simp only [deleteObsoleteDelayedOutputMaps, if_pos hH, if_neg hL] at h
        cases h
        exact Or.inr ⟨pb.Height, not_not.mp (fun hx => hL ⟨rfl, hx⟩), rfl⟩
    · simp only [deleteObsoleteDelayedOutputMaps, if_neg hH] at h
      cases h
      exact Or.inl rfl
  | DiffRevert =>
    by_cases hL : DEBUG = true ∧ ¬lenDelayedSiacoinOutputsHeight (pb.Height + MaturityDelay) s = 0
    · simp only [deleteObsoleteDelayedOutputMaps, if_pos hL] at h
      exact Res.noConfusion h
    · simp only [deleteObsoleteDelayedOutputMaps, if_neg hL] at h
      cases h
      exact Or.inr ⟨pb.Height + MaturityDelay, not_not.mp (fun hx => hL ⟨rfl, hx⟩), rfl⟩

/-- A successful path update changes only the canonical path. -/
theorem updatePath_shape {pb : ProcessedBlock} {dir : DiffDirection} {s w : Store}
    (h : updateCurrentPath pb dir s = .ok w) :
    w.SiacoinOutputs = s.SiacoinOutputs ∧ w.FileContracts = s.FileContracts ∧
    w.SiafundOutputs = s.SiafundOutputs ∧ w.DelayedSiacoinOutputs = s.DelayedSiacoinOutputs ∧
    w.SiafundPool = s.SiafundPool ∧ w.BlockMap = s.BlockMap := by
  cases dir with
  | DiffApply =>
    simp only [updateCurrentPath, pushPath] at h
    cases h
    exact ⟨rfl, rfl, rfl, rfl, rfl, rfl⟩
  | DiffRevert =>
    simp only [updateCurrentPath, popPath] at h
    split at h
    · rename_i t heq
      cases h
      split at heq
      · exact Res.noConfusion heq
      · cases heq
        exact ⟨rfl, rfl, rfl, rfl, rfl, rfl⟩
    · simp [DEBUG] at h
    · exact Res.noConfusion h

/-- Inversion of a successful commitDiffSet: the sanity checks passed, the
upcoming bucket was created, the node diffs either committed or their error
was discarded with the store rolled back, and the cleanup and path update
ran on the result. -/
theorem commitDiffSet_ok_inv {pb : ProcessedBlock} {dir : DiffDirection} {c c' : CState}
    (h : commitDiffSet pb dir c = (.ok (), c')) :
    ∃ t u v w, commitDiffSetSanity pb dir c = .ok () ∧
      createUpcomingDelayedOutputMaps pb dir c.db = .ok t ∧
      (commitNodeDiffsTx pb dir t = .ok u ∨
        (u = t ∧ ∃ e, commitNodeDiffsTx pb dir t = .err e)) ∧
      deleteObsoleteDelayedOutputMaps pb dir u = .ok v ∧
      updateCurrentPath pb dir v = .ok w ∧ c' = { c with db := w } := by
  simp only [commitDiffSet, dbUpdate, commitNodeDiffs, deleteAndPath] at h
  split at h
  · exact absurd (congrArg Prod.fst h) (by simp)
  · exact absurd (congrArg Prod.fst h) (by simp)
  · rename_i u0 hsan
    cases u0
    split at h
    · exact absurd (congrArg Prod.fst h) (by simp)
    · exact absurd (congrArg Prod.fst h) (by simp)
    · rename_i c1 heq1
      split at heq1
      · rename_i t hcre
        cases heq1
        split at h
        · exact absurd (congrArg Prod.fst h) (by simp)
        · rename_i c2 heq2
          split at heq2
          · rename_i u hnode
            cases heq2
            split at h
            · exact absurd (congrArg Prod.fst h) (by simp)
            · exact absurd (congrArg Prod.fst h) (by simp)
            · rename_i v hdel
              split at h
              · exact absurd (congrArg Prod.fst h) (by simp)
              · exact absurd (congrArg Prod.fst h) (by simp)
              · rename_i w hupd
                refine ⟨t, u, v, w, hsan, hcre, Or.inl hnode, hdel, hupd, ?_⟩
                have hsnd := congrArg Prod.snd h
                simpa using hsnd.symm
          · exact Prod.noConfusion heq2 (fun h1 _ => Res.noConfusion h1)
          · exact Prod.noConfusion heq2 (fun h1 _ => Res.noConfusion h1)
        · rename_i c2 heq2
          split at heq2
          · exact Prod.noConfusion heq2 (fun h1 _ => Res.noConfusion h1)
          · rename_i e hnode
            cases heq2
            split at h
            · exact absurd (congrArg Prod.fst h) (by simp)
            · exact absurd (congrArg Prod.fst h) (by simp)
            · rename_i v hdel
              split at h
              · exact absurd (congrArg Prod.fst h) (by simp)
              · exact absurd (congrArg Prod.fst h) (by simp)
              · rename_i w hupd
                refine ⟨t, t, v, w, hsan, hcre, Or.inr ⟨rfl, _, hnode⟩, hdel, hupd, ?_⟩
                have hsnd := congrArg Prod.snd h
                simpa using hsnd.symm
          · exact Prod.noConfusion heq2 (fun h1 _ => Res.noConfusion h1)
      · exact Prod.noConfusion heq1 (fun h1 _ => Res.noConfusion h1)
      · exact Prod.noConfusion heq1 (fun h1 _ => Res.noConfusion h1)

/-- Inversion of a successful forward pool commit: the stored value matched
the recorded previous value, the result is the adjusted value, the
adjustment is non-negative and the diff carries the apply tag. -/
theorem sfpdM_apply_ok_inv {d : SiafundPoolDiff} {p q : Nat}
    (h : sfpdM .DiffApply d p = .ok q) :
    p = d.Previous ∧ q = d.Adjusted ∧ d.Previous ≤ d.Adjusted ∧
      d.Direction = .DiffApply := by
  simp only [sfpdM] at h
  split at h
  · exact Res.noConfusion h
  · rename_i h1
    split at h
    · exact Res.noConfusion h
    · rename_i h2
      split at h
      · exact Res.noConfusion h
      · rename_i h3
        cases h
        have hprev : p = d.Previous := not_not.mp (fun hx => h3 ⟨rfl, hx⟩)
        have hmono : ¬d.Adjusted < d.Previous := fun hx => h1 ⟨rfl, hx⟩
        have hdir : d.Direction = .DiffApply := not_not.mp (fun hx => h2 ⟨rfl, hx⟩)
        exact ⟨hprev, rfl, by omega, hdir⟩

/-- A successful forward fold of pool diffs never decreases the pool. -/
theorem compFold_sfpd_mono :
    ∀ (l : List SiafundPoolDiff) (p q : Nat),
      compFold (sfpdM .DiffApply) l p = .ok q → p ≤ q := by
  intro l
  induction l with
  | nil =>
    intro p q h
    simp only [compFold] at h
    cases h
    exact le_refl _
  | cons d tl ih =>
    intro p q h
    simp only [compFold] at h
    cases hg : sfpdM .DiffApply d p with
    | ok r =>
      rw [hg] at h
      obtain ⟨hp, hr, hmono, _⟩ := sfpdM_apply_ok_inv hg
      have hih := ih r q h
      omega
    | err e => rw [hg] at h; cases h
    | fatal e => rw [hg] at h; cases h

/-- A successfully applied diff set never decreases the siafund pool. -/
theorem commitDiffSet_apply_pool {pb : ProcessedBlock} {c c' : CState}
    (h : commitDiffSet pb .DiffApply c = (.ok (), c')) :
    c.db.SiafundPool ≤ c'.db.SiafundPool := by
  obtain ⟨t, u, v, w, hsan, hcre, hnode, hdel, hupd, hc'⟩ := commitDiffSet_ok_inv h
  have ht : t.SiafundPool = c.db.SiafundPool := by
    have hcre2 : createDSCOBucket (pb.Height + MaturityDelay) c.db = .ok t := by
      simpa [createUpcomingDelayedOutputMaps] using hcre
    rcases createDSCOBucket_shape hcre2 with h1 | h1 <;> subst h1 <;> rfl
  have htu : t.SiafundPool ≤ u.SiafundPool := by
    rcases hnode with hnode | ⟨hut, _⟩
    · rw [commitNodeDiffsTx_apply_eq] at hnode
      exact compFold_sfpd_mono _ _ _ (storeFolds_ok_inv hnode).2.2.2.2.1
    · subst hut
      exact le_refl _
  have hv : v.SiafundPool = u.SiafundPool := by
    rcases deleteObsolete_shape hdel with h1 | ⟨hh, _, h1⟩ <;> subst h1 <;> rfl
  have hw : w.SiafundPool = v.SiafundPool := (updatePath_shape hupd).2.2.2.2.1
  subst hc'
  show c.db.SiafundPool ≤ w.SiafundPool
  omega

/-- Inversion of a successful component-level lifting. -/
theorem liftRes_ok {γ : Type} {r : Res γ} {g : γ → Store} {s' : Store}
    (h : liftRes r g = .ok s') : ∃ x, r = .ok x ∧ s' = g x := by
  cases r with
  | ok x =>
    simp only [liftRes] at h
    cases h
    exact ⟨x, rfl, rfl⟩
  | err e => exact Res.noConfusion h
  | fatal e => exact Res.noConfusion h

/-- Inversion of a successful revert-direction pool commit. -/
theorem sfpdM_revert_ok_inv {d : SiafundPoolDiff} {p q : Nat}
    (h : sfpdM .DiffRevert d p = .ok q) :
    p = d.Adjusted ∧ q = d.Previous := by
  simp only [sfpdM] at h
  split at h
  · exact Res.noConfusion h
  · split at h
    · exact Res.noConfusion h
    · rename_i h2
      split at h
      · exact Res.noConfusion h
      · rename_i h3
        cases h
        exact ⟨not_not.mp (fun hx => h3 ⟨rfl, hx⟩), rfl⟩

/-- The commit-each loop distributed over list append. -/
theorem commitEach_append {α : Type} (f : α → Store → Res Store) (l1 l2 : List α) (s : Store) :
    commitEach f (l1 ++ l2) s = (commitEach f l1 s).bind (commitEach f l2) := by
  induction l1 generalizing s with
  | nil => simp [commitEach, Res.bind]
  | cons d tl ih =>
    simp only [List.cons_append, commitEach]
    cases f d s <;> simp [Res.bind, ih]

/-- The dispatching commit over an injected list agrees with the kind's own
loop. -/
theorem commitEach_map {α : Type} (dir : DiffDirection) (f : α → Store → Res Store)
    (inj : α → AnyDiff) (hinj : ∀ d s, commitAnyDiff (inj d) dir s = f d s) :
    ∀ (l : List α) (s : Store),
      commitEach (fun d => commitAnyDiff d dir) (l.map inj) s = commitEach f l s := by
  intro l
  induction l with
  | nil => intro s; rfl
  | cons d tl ih =>
    intro s
    simp only [List.map_cons, commitEach, hinj]
    cases f d s <;> simp [ih]

theorem commitEach_map_sco (dir : DiffDirection) (l : List SiacoinOutputDiff) (s : Store) :
    commitEach (fun d => commitAnyDiff d dir) (l.map .sco) s
      = commitEach (fun d => commitSiacoinOutputDiff d dir) l s :=
  commitEach_map dir _ .sco (fun _ _ => rfl) l s

theorem commitEach_map_fc (dir : DiffDirection) (l : List FileContractDiff) (s : Store) :
    commitEach (fun d => commitAnyDiff d dir) (l.map .fc) s
      = commitEach (fun d => commitFileContractDiff d dir) l s :=
  commitEach_map dir _ .fc (fun _ _ => rfl) l s

theorem commitEach_map_sfo (dir : DiffDirection) (l : List SiafundOutputDiff) (s : Store) :
    commitEach (fun d => commitAnyDiff d dir) (l.map .sfo) s
      = commitEach (fun d => commitSiafundOutputDiff d dir) l s :=
  commitEach_map dir _ .sfo (fun _ _ => rfl) l s

theorem commitEach_map_dsco (dir : DiffDirection) (l : List DelayedSiacoinOutputDiff) (s : Store) :
    commitEach (fun d => commitAnyDiff d dir) (l.map .dsco) s
      = commitEach (fun d => commitDelayedSiacoinOutputDiff d dir) l s :=
  commitEach_map dir _ .dsco (fun _ _ => rfl) l s

theorem commitEach_map_pool (dir : DiffDirection) (l : List SiafundPoolDiff) (s : Store) :
    commitEach (fun d => commitAnyDiff d dir) (l.map .pool) s
      = commitEach (fun d => commitSiafundPoolDiff d dir) l s :=
  commitEach_map dir _ .pool (fun _ _ => rfl) l s

theorem commitEach_append2 {α : Type} (f : α → Store → Res Store) (l1 l2 : List α) :
    commitEach f (l1 ++ l2) = fun s => (commitEach f l1 s).bind (commitEach f l2) :=
  funext (commitEach_append f l1 l2)

theorem commitEach_map_sco2 (dir : DiffDirection) (l : List SiacoinOutputDiff) :
    commitEach (fun d => commitAnyDiff d dir) (l.map .sco)
      = commitEach (fun d => commitSiacoinOutputDiff d dir) l :=
  funext (commitEach_map_sco dir l)

theorem commitEach_map_fc2 (dir : DiffDirection) (l : List FileContractDiff) :
    commitEach (fun d => commitAnyDiff d dir) (l.map .fc)
      = commitEach (fun d => commitFileContractDiff d dir) l :=
  funext (commitEach_map_fc dir l)

theorem commitEach_map_sfo2 (dir : DiffDirection) (l : List SiafundOutputDiff) :
    commitEach (fun d => commitAnyDiff d dir) (l.map .sfo)
      = commitEach (fun d => commitSiafundOutputDiff d dir) l :=
  funext (commitEach_map_sfo dir l)

theorem commitEach_map_dsco2 (dir : DiffDirection) (l : List DelayedSiacoinOutputDiff) :
    commitEach (fun d => commitAnyDiff d dir) (l.map .dsco)
      = commitEach (fun d => commitDelayedSiacoinOutputDiff d dir) l :=
  funext (commitEach_map_dsco dir l)

theorem commitEach_map_pool2 (dir : DiffDirection) (l : List SiafundPoolDiff) :
    commitEach (fun d => commitAnyDiff d dir) (l.map .pool)
      = commitEach (fun d => commitSiafundPoolDiff d dir) l :=
  funext (commitEach_map_pool dir l)

/-- The node diff committer's transaction body equals the single ordered
fold over the spec's diff sequence. -/
theorem commitNodeDiffsTx_eq_specOrder (pb : ProcessedBlock) (dir : DiffDirection) (s : Store) :
    commitNodeDiffsTx pb dir s
      = commitEach (fun d => commitAnyDiff d dir) (specDiffOrder pb dir) s := by
  cases dir with
  | DiffApply =>
    simp only [specDiffOrder, commitEach_append2, commitEach_map_sco2, commitEach_map_fc2,
      commitEach_map_sfo2, commitEach_map_dsco2, commitEach_map_pool2]
    rfl
  | DiffRevert =>
    simp only [specDiffOrder, commitEach_append2, commitEach_map_sco2, commitEach_map_fc2,
      commitEach_map_sfo2, commitEach_map_dsco2, commitEach_map_pool2]
    rfl

/-- The bucket destroyer never returns a recoverable error. -/
theorem deleteObsolete_no_err (pb : ProcessedBlock) (dir : DiffDirection) (s : Store) (e : Err) :
    ¬deleteObsoleteDelayedOutputMaps pb dir s = .err e := by
  intro h
  cases dir with
  | DiffApply =>
    simp only [deleteObsoleteDelayedOutputMaps] at h
    split at h
    · split at h <;> exact Res.noConfusion h
    · exact Res.noConfusion h
  | DiffRevert =>
    simp only [deleteObsoleteDelayedOutputMaps] at h
    split at h <;> exact Res.noConfusion h

/-- The path updater never returns a recoverable error (a failing path
operation is a DEBUG panic). -/
theorem updatePath_no_err (pb : ProcessedBlock) (dir : DiffDirection) (s : Store) (e : Err) :
    ¬updateCurrentPath pb dir s = .err e := by
  intro h
  cases dir with
  | DiffApply =>
    simp only [updateCurrentPath, pushPath] at h
    exact Res.noConfusion h
  | DiffRevert =>
    simp only [updateCurrentPath, popPath] at h
    split at h
    · exact Res.noConfusion h
    · simp [DEBUG] at h
    · exact Res.noConfusion h

/-- The tail of commitDiffSet never surfaces a recoverable error. -/
theorem deleteAndPath_no_err (pb : ProcessedBlock) (dir : DiffDirection) (c : CState) (e : Err) :
    ¬(deleteAndPath pb dir c).1 = .err e := by
  intro h
  simp only [deleteAndPath] at h
  split at h
  · simp at h
  · rename_i e2 hdel
    exact deleteObsolete_no_err pb dir c.db e2 hdel
  · rename_i t hdel
    split at h
    · simp at h
    · rename_i e2 hupd
      exact updatePath_no_err pb dir t e2 hupd
    · simp at h

/-- A fatal sanity check propagates unchanged out of commitDiffSet. -/
theorem commitDiffSet_sanity_fatal {pb : ProcessedBlock} {dir : DiffDirection} {c : CState}
    {e : Err} (h : commitDiffSetSanity pb dir c = .fatal e) :
    commitDiffSet pb dir c = (.fatal e, c) := by
  simp [commitDiffSet, h]

theorem sanity_fatal_noDG {pb : ProcessedBlock} {dir : DiffDirection} {c : CState}
    (hDG : ¬pb.DiffsGenerated = true) :
    commitDiffSetSanity pb dir c = .fatal .diffsNotGenerated := by
  simp [commitDiffSetSanity, DEBUG, hDG]

theorem sanity_fatal_wrongApply {pb : ProcessedBlock} {c : CState} {par : ProcessedBlock}
    (hDG : pb.DiffsGenerated = true) (hpar : c.db.BlockMap pb.Parent = some par)
    (hid : ¬par.block.ID = currentBlockID c.db) :
    commitDiffSetSanity pb .DiffApply c = .fatal .wrongAppliedDiffSet := by
  simp [commitDiffSetSanity, DEBUG, hDG, hpar, hid]

theorem sanity_fatal_wrongRevert {pb : ProcessedBlock} {c : CState}
    (hDG : pb.DiffsGenerated = true) (hid : ¬pb.block.ID = currentBlockID c.db) :
    commitDiffSetSanity pb .DiffRevert c = .fatal .wrongRevertDiffSet := by
  simp [commitDiffSetSanity, DEBUG, hDG, hid]

/-- Evaluation of the initial update of generateAndApplyDiff when the block
sits at the next height and its upcoming bucket is fresh. -/
theorem gadInit_eval {pb : ProcessedBlock} {s : Store}
    (hh : pb.Height = s.BlockPath.length)
    (hb : s.DelayedSiacoinOutputs (pb.Height + MaturityDelay) = none) :
    gadInit pb s = .ok (withBucket (pb.Height + MaturityDelay) (pushStore pb.block.ID s)) := by
  simp only [gadInit, blockPathPut, if_pos hh, Res.bind]
  exact createDSCOBucket_absent hb

/-- A node with no diffs commits as the identity. -/
theorem nodeTx_empty {pb : ProcessedBlock} {dir : DiffDirection} {s : Store}
    (h1 : pb.SiacoinOutputDiffs = []) (h2 : pb.FileContractDiffs = [])
    (h3 : pb.SiafundOutputDiffs = []) (h4 : pb.DelayedSiacoinOutputDiffs = [])
    (h5 : pb.SiafundPoolDiffs = []) :
    commitNodeDiffsTx pb dir s = .ok s := by
  cases dir with
  | DiffApply =>
    rw [commitNodeDiffsTx_apply_eq, h1, h2, h3, h4, h5]
    rfl
  | DiffRevert =>
    rw [commitNodeDiffsTx_revert_eq, h1, h2, h3, h4, h5]
    rfl

/-- Node diff commits ignore the canonical path: the same commit succeeds
from the same store with any path, leaving that path in place. -/
theorem nodeTx_with_path {pb : ProcessedBlock} {dir : DiffDirection} {s s' : Store}
    (p : List Nat) (h : commitNodeDiffsTx pb dir s = .ok s') :
    commitNodeDiffsTx pb dir { s with BlockPath := p } = .ok { s' with BlockPath := p } := by
  cases dir with
  | DiffApply =>
    rw [commitNodeDiffsTx_apply_eq] at h ⊢
    obtain ⟨e1, e2, e3, e4, e5, hp, hm⟩ := storeFolds_ok_inv h
    exact (@storeFolds_ok_build .DiffApply pb.SiacoinOutputDiffs pb.FileContractDiffs
        pb.SiafundOutputDiffs pb.DelayedSiacoinOutputDiffs pb.SiafundPoolDiffs
        { s with BlockPath := p } _ _ _ _ _ e1 e2 e3 e4 e5).trans
      (congrArg Res.ok (Store.ext rfl rfl rfl rfl rfl rfl hm.symm))
  | DiffRevert =>
    rw [commitNodeDiffsTx_revert_eq] at h ⊢
    obtain ⟨e1, e2, e3, e4, e5, hp, hm⟩ := storeFolds_ok_inv h
    exact (@storeFolds_ok_build .DiffRevert pb.SiacoinOutputDiffs.reverse
        pb.FileContractDiffs.reverse pb.SiafundOutputDiffs.reverse
        pb.DelayedSiacoinOutputDiffs.reverse pb.SiafundPoolDiffs.reverse
        { s with BlockPath := p } _ _ _ _ _ e1 e2 e3 e4 e5).trans
      (congrArg Res.ok (Store.ext rfl rfl rfl rfl rfl rfl hm.symm))

/-- If the transaction loop reaches a transaction whose validation passes
but whose application fails, it returns that error with the node, store and
known-invalid set exactly as they were at entry to the failing
transaction. -/
theorem gadLoop_appFails (collab : Collaborators) (bid : Nat) :
    ∀ (txns : List Nat) (pb : ProcessedBlock) (c : CState) (e : Err)
      (pbK : ProcessedBlock) (sK : Store),
      runAppFails collab txns pb c.db = some (e, pbK, sK) →
      gadLoop collab bid txns pb c = (.err e, pbK, ⟨sK, c.dosBlocks⟩) := by
  intro txns
  induction txns with
  | nil =>
    intro pb c e pbK sK h
    exact Option.noConfusion h
  | cons txn tl ih =>
    intro pb c e pbK sK h
    simp only [runAppFails] at h
    cases hv : collab.validTx txn c.db with
    | some e2 =>
      rw [hv] at h
      exact Option.noConfusion h
    | none =>
      rw [hv] at h
      cases ha : applyDiffSetFwd (collab.txnDiffs txn c.db) c.db with
      | ok t =>
        rw [ha] at h
        have hrec := ih (appendDiffs pb (collab.txnDiffs txn c.db)) { c with db := t }
          e pbK sK h
        simp only [gadLoop, hv, ha]
        exact hrec
      | err e2 =>
        rw [ha] at h
        cases h
        simp only [gadLoop, hv, ha]
      | fatal e2 =>
        rw [ha] at h
        exact Option.noConfusion h

/-- The rollback path of the transaction loop: if the loop reaches a
transaction failing validation — every earlier transaction applying its
consistent diffs cleanly, and the maturity maintenance of the failing step
succeeding — then the loop surfaces the validation error, records the block
identifier in the known-invalid set, and leaves the store equal to the
pre-loop store `s1` with the upcoming bucket removed and the path tip
popped. -/
theorem gadLoop_runFails (collab : Collaborators) (bid : Nat) :
    ∀ (txns : List Nat) (pb : ProcessedBlock) (c : CState) (e : Err)
      (pbM : ProcessedBlock) (sM : Store) (s1 : Store) (P : List Nat),
      pb.block.ID = bid →
      pb.DiffsGenerated = true →
      commitNodeDiffsTx pb .DiffRevert c.db = .ok s1 →
      s1.BlockPath = P ++ [bid] →
      s1.DelayedSiacoinOutputs (pb.Height + MaturityDelay) = some emptyBucket →
      (MaturityDelay < pb.Height → (s1.DelayedSiacoinOutputs pb.Height).isSome = true) →
      runFails collab txns pb c.db = some (e, pbM, sM) →
      gadLoop collab bid txns pb c = (.err e, pbM,
        ⟨{ s1 with DelayedSiacoinOutputs := upd s1.DelayedSiacoinOutputs (pb.Height + MaturityDelay) none, BlockPath := s1.BlockPath.dropLast }, addDos bid c.dosBlocks⟩) := by
  intro txns
  induction txns with
  | nil =>
    intro pb c e pbM sM s1 P hbid hDG hInv hpath hbkt hbktH h
    exact Option.noConfusion h
  | cons txn tl ih =>
    intro pb c e pbM sM s1 P hbid hDG hInv hpath hbkt hbktH h
    simp only [runFails] at h
    cases hv : collab.validTx txn c.db with
    | none =>
      simp only [hv] at h
      cases ha : applyDiffSetFwd (collab.txnDiffs txn c.db) c.db with
      | ok t =>
        simp only [ha] at h
        by_cases hcs : dsConsistent (collab.txnDiffs txn c.db) c.db = true
        · rw [if_pos hcs] at h
          have hInv2 : commitNodeDiffsTx (appendDiffs pb (collab.txnDiffs txn c.db))
              .DiffRevert t = .ok s1 := nodeTx_rt_extend hInv ha hcs
          have hrec := ih (appendDiffs pb (collab.txnDiffs txn c.db)) { c with db := t }
            e pbM sM s1 P hbid hDG hInv2 hpath hbkt hbktH h
          simp only [gadLoop, hv, ha]
          exact hrec
        · rw [if_neg hcs] at h
          exact Option.noConfusion h
      | err e2 =>
        simp only [ha] at h
        exact Option.noConfusion h
      | fatal e2 =>
        simp only [ha] at h
        exact Option.noConfusion h
    | some e2 =>
      simp only [hv] at h
      by_cases hcs : dsConsistent (collab.matDiffs pb c.db) c.db = true
      · rw [if_pos hcs] at h
        cases ha : applyDiffSetFwd (collab.matDiffs pb c.db) c.db with
        | ok sM2 =>
          simp only [ha] at h
          cases h
          have hInvM : commitNodeDiffsTx (appendDiffs pb (collab.matDiffs pb c.db))
              .DiffRevert sM = .ok s1 := nodeTx_rt_extend hInv ha hcs
          have hcpath : s1.BlockPath = c.db.BlockPath := (nodeTx_ok_path hInv).1
          have ha2 : storeFolds .DiffApply (collab.matDiffs pb c.db).scods
              (collab.matDiffs pb c.db).fcds (collab.matDiffs pb c.db).sfods
              (collab.matDiffs pb c.db).dscods (collab.matDiffs pb c.db).sfpds c.db
              = .ok sM := by
            rw [← applyDiffSetFwd_eq]
            exact ha
          have hsMpath : sM.BlockPath = c.db.BlockPath := (storeFolds_ok_inv ha2).2.2.2.2.2.1
          have hcur : currentBlockID sM
              = (appendDiffs pb (collab.matDiffs pb c.db)).block.ID := by
            show sM.BlockPath.getLastD 0 = pb.block.ID
            rw [hsMpath, ← hcpath, hpath, hbid]
            exact List.getLastD_concat _ _ _
          have hsan : commitDiffSetSanity (appendDiffs pb (collab.matDiffs pb c.db))
              .DiffRevert ⟨sM, c.dosBlocks⟩ = .ok () := sanity_revert_ok hDG hcur
          have hInvM2 : storeFolds .DiffRevert
              (appendDiffs pb (collab.matDiffs pb c.db)).SiacoinOutputDiffs.reverse
              (appendDiffs pb (collab.matDiffs pb c.db)).FileContractDiffs.reverse
              (appendDiffs pb (collab.matDiffs pb c.db)).SiafundOutputDiffs.reverse
              (appendDiffs pb (collab.matDiffs pb c.db)).DelayedSiacoinOutputDiffs.reverse
              (appendDiffs pb (collab.matDiffs pb c.db)).SiafundPoolDiffs.reverse sM
              = .ok s1 := by
            rw [← commitNodeDiffsTx_revert_eq]
            exact hInvM
          have hEx : MaturityDelay < pb.Height →
              (sM.DelayedSiacoinOutputs pb.Height).isSome = true := by
            intro hH
            have hiso := compFold_dscod_isSome .DiffRevert _ _ _
              (storeFolds_ok_inv hInvM2).2.2.2.1 pb.Height
            rw [← hiso]
            exact hbktH hH
          have hcre : createUpcomingDelayedOutputMaps
              (appendDiffs pb (collab.matDiffs pb c.db)) .DiffRevert sM = .ok sM :=
            createUpcoming_revert_noop hEx
          have hlen : lenDelayedSiacoinOutputsHeight
              ((appendDiffs pb (collab.matDiffs pb c.db)).Height + MaturityDelay) s1 = 0 := by
            show lenDelayedSiacoinOutputsHeight (pb.Height + MaturityDelay) s1 = 0
            simp [lenDelayedSiacoinOutputsHeight, hbkt, emptyBucket]
          have hdel := deleteObsolete_revert_eval hlen
          have hnonempty : ¬(rmDelayedSiacoinOutputs
              ((appendDiffs pb (collab.matDiffs pb c.db)).Height + MaturityDelay)
              s1).BlockPath = [] := by
            show ¬s1.BlockPath = []
            rw [hpath]
            simp
          have hupd := @updatePath_revert_eval (appendDiffs pb (collab.matDiffs pb c.db))
            (rmDelayedSiacoinOutputs
              ((appendDiffs pb (collab.matDiffs pb c.db)).Height + MaturityDelay) s1) hnonempty
          have hcds := commitDiffSet_eval hsan hcre hInvM hdel hupd
          simp only [gadLoop, hv, ha, hcds]
          rfl
        | err e3 =>
          simp only [ha] at h
          exact Option.noConfusion h
        | fatal e3 =>
          simp only [ha] at h
          exact Option.noConfusion h
      · rw [if_neg hcs] at h
        exact Option.noConfusion h

/- ---------------------------------------------------------------------
   Claim theorems.
   --------------------------------------------------------------------- -/

/-- C1: when the transaction loop of generateAndApplyDiff encounters a
transaction that fails validation — every earlier transaction of the block
validating and applying cleanly with reversible diffs, and the maturity
maintenance of the failing step succeeding — the function reverts all the
state changes it has made: the delayed-output bucket created for the block
is deleted, the block identifier is popped from the current path, the
applied diffs are rolled back, so the resulting consensus database equals
the database before the call; the block is recorded as known-invalid and
the validation error is returned. -/
theorem c1_invalid_txn_rollback (collab : Collaborators) (pb : ProcessedBlock)
    (c : CState) (e : Err) (pbM : ProcessedBlock) (sM : Store)
    (hpar : pb.Parent = currentBlockID c.db)
    (hheight : pb.Height = c.db.BlockPath.length)
    (h1 : pb.SiacoinOutputDiffs = []) (h2 : pb.FileContractDiffs = [])
    (h3 : pb.SiafundOutputDiffs = []) (h4 : pb.DelayedSiacoinOutputDiffs = [])
    (h5 : pb.SiafundPoolDiffs = [])
    (hbkt : c.db.DelayedSiacoinOutputs (pb.Height + MaturityDelay) = none)
    (hbktH : MaturityDelay < pb.Height →
      (c.db.DelayedSiacoinOutputs pb.Height).isSome = true)
    (hrun : runFails collab pb.block.Transactions { pb with DiffsGenerated := true }
      (withBucket (pb.Height + MaturityDelay) (pushStore pb.block.ID c.db))
      = some (e, pbM, sM)) :
    generateAndApplyDiff collab pb c
      = (.err e, pbM, ⟨c.db, addDos pb.block.ID c.dosBlocks⟩) := by
  have hinit := gadInit_eval hheight hbkt
  have hnode : commitNodeDiffsTx { pb with DiffsGenerated := true } .DiffRevert
      (withBucket (pb.Height + MaturityDelay) (pushStore pb.block.ID c.db))
      = .ok (withBucket (pb.Height + MaturityDelay) (pushStore pb.block.ID c.db)) :=
    nodeTx_empty h1 h2 h3 h4 h5
  have hpathS : (withBucket (pb.Height + MaturityDelay)
      (pushStore pb.block.ID c.db)).BlockPath = c.db.BlockPath ++ [pb.block.ID] := rfl
  have hbktS : (withBucket (pb.Height + MaturityDelay)
      (pushStore pb.block.ID c.db)).DelayedSiacoinOutputs (pb.Height + MaturityDelay)
      = some emptyBucket := upd_apply_self _ _ _
  have hne : ¬pb.Height = pb.Height + MaturityDelay := by simp [MaturityDelay]
  have hbktHS : MaturityDelay < pb.Height →
      ((withBucket (pb.Height + MaturityDelay)
        (pushStore pb.block.ID c.db)).DelayedSiacoinOutputs pb.Height).isSome = true := by
    intro hH
    show (upd (pushStore pb.block.ID c.db).DelayedSiacoinOutputs
      (pb.Height + MaturityDelay) (some emptyBucket) pb.Height).isSome = true
    rw [upd_apply_other _ _ _ _ hne]
    exact hbktH hH
  have hloop := gadLoop_runFails collab pb.block.ID pb.block.Transactions
    { pb with DiffsGenerated := true }
    { c with db := withBucket (pb.Height + MaturityDelay) (pushStore pb.block.ID c.db) }
    e pbM sM (withBucket (pb.Height + MaturityDelay) (pushStore pb.block.ID c.db))
    c.db.BlockPath rfl rfl hnode hpathS hbktS hbktHS hrun
  have hst : ({ withBucket (pb.Height + MaturityDelay) (pushStore pb.block.ID c.db) with
      DelayedSiacoinOutputs := upd (withBucket (pb.Height + MaturityDelay)
        (pushStore pb.block.ID c.db)).DelayedSiacoinOutputs (pb.Height + MaturityDelay) none,
      BlockPath := (withBucket (pb.Height + MaturityDelay)
        (pushStore pb.block.ID c.db)).BlockPath.dropLast } : Store) = c.db := by
    refine Store.ext rfl rfl rfl ?_ rfl ?_ rfl
    · show upd (upd c.db.DelayedSiacoinOutputs (pb.Height + MaturityDelay)
        (some emptyBucket)) (pb.Height + MaturityDelay) none = c.db.DelayedSiacoinOutputs
      rw [upd_upd]
      exact upd_eq_self _ _ _ hbkt
    · show (c.db.BlockPath ++ [pb.block.ID]).dropLast = c.db.BlockPath
      simp
  simp only [generateAndApplyDiff]
  rw [if_neg (fun hx => hx.2 hpar)]
  simp only [hinit, hloop]
  exact congrArg (fun d =>
    ((Res.err e, pbM, (⟨d, addDos pb.block.ID c.dosBlocks⟩ : CState))
      : Res Unit × ProcessedBlock × CState)) hst

/-- Witness for C1 at a concrete block with one invalid transaction: the
call surfaces the validation error, the database is unchanged and the block
is recorded as known-invalid. -/
theorem c1_witness : generateAndApplyDiff c1Collab c10Node c10C
    = (.err (.validationFailed 7),
       appendDiffs { c10Node with DiffsGenerated := true } emptyDiffSet,
       ⟨c10C.db, addDos c10Node.block.ID c10C.dosBlocks⟩) :=
  c1_invalid_txn_rollback c1Collab c10Node c10C (.validationFailed 7)
    (appendDiffs { c10Node with DiffsGenerated := true } emptyDiffSet)
    (withBucket (c10Node.Height + MaturityDelay) (pushStore c10Node.block.ID c10C.db))
    rfl rfl rfl rfl rfl rfl rfl rfl
    (fun h => absurd h (by decide)) rfl

/-- C2 (amended): a block applied through commitDiffSet and then reverted
through commitDiffSet leaves the storage state (outputs, contracts, pool,
canonical path, height) bit-identical to the state before the apply,
provided the sanity preconditions hold (diffs generated, parent in the block
map at the tip), the block's upcoming delayed-output bucket is fresh, the
node's diffs apply cleanly and consistently (removals delete exactly the
recorded values, so the revert direction restores them), and, for a block
past the maturity window, the bucket consumed at the block's own height ends
the apply exactly empty.  Without the consistency hypotheses the round trip
can succeed while changing stored values (see the counterexample). -/
theorem c2_commitDiffSet_roundtrip (pb : ProcessedBlock) (c : CState)
    (par : ProcessedBlock) (t : Store)
    (hDG : pb.DiffsGenerated = true)
    (hmap : c.db.BlockMap pb.Parent = some par)
    (hid : par.block.ID = currentBlockID c.db)
    (hbkt : c.db.DelayedSiacoinOutputs (pb.Height + MaturityDelay) = none)
    (hnode : commitNodeDiffsTx pb .DiffApply
      (withBucket (pb.Height + MaturityDelay) c.db) = .ok t)
    (hcons : nodeConsistent pb (withBucket (pb.Height + MaturityDelay) c.db) = true)
    (hemp : MaturityDelay < pb.Height →
      t.DelayedSiacoinOutputs pb.Height = some emptyBucket) :
    ∃ c1 : CState, commitDiffSet pb .DiffApply c = (.ok (), c1) ∧
      commitDiffSet pb .DiffRevert c1 = (.ok (), c) := by
  have hsanA := sanity_apply_ok hDG hmap hid
  have hcreA := createUpcoming_apply_absent hbkt
  have hrev := nodeTx_rt hnode hcons
  have htp : t.BlockPath = c.db.BlockPath := (nodeTx_ok_path hnode).1
  by_cases hH : MaturityDelay < pb.Height
  · have hlenA : lenDelayedSiacoinOutputsHeight pb.Height t = 0 := by
      simp [lenDelayedSiacoinOutputsHeight, hemp hH, emptyBucket]
    have hdelA := deleteObsolete_apply_high hH hlenA
    have hupdA := updatePath_apply_eval pb (rmDelayedSiacoinOutputs pb.Height t)
    have happly := commitDiffSet_eval hsanA hcreA hnode hdelA hupdA
    refine ⟨{ c with db := pushStore pb.block.ID (rmDelayedSiacoinOutputs pb.Height t) },
      happly, ?_⟩
    have hcur : currentBlockID
        (pushStore pb.block.ID (rmDelayedSiacoinOutputs pb.Height t)) = pb.block.ID := by
      show (t.BlockPath ++ [pb.block.ID]).getLastD 0 = pb.block.ID
      exact List.getLastD_concat _ _ _
    have hsanR : commitDiffSetSanity pb .DiffRevert
        { c with db := pushStore pb.block.ID (rmDelayedSiacoinOutputs pb.Height t) }
        = .ok () := sanity_revert_ok hDG hcur
    have hbR : (pushStore pb.block.ID
        (rmDelayedSiacoinOutputs pb.Height t)).DelayedSiacoinOutputs pb.Height = none :=
      upd_apply_self _ _ _
    have hcreR := createUpcoming_revert_create hH hbR
    have hkey : withBucket pb.Height
        (pushStore pb.block.ID (rmDelayedSiacoinOutputs pb.Height t))
        = pushStore pb.block.ID t := by
      refine Store.ext rfl rfl rfl ?_ rfl rfl rfl
      show upd (upd t.DelayedSiacoinOutputs pb.Height none) pb.Height (some emptyBucket)
        = t.DelayedSiacoinOutputs
      rw [upd_upd]
      exact upd_eq_self _ _ _ (hemp hH)
    have hndR : commitNodeDiffsTx pb .DiffRevert (withBucket pb.Height
        (pushStore pb.block.ID (rmDelayedSiacoinOutputs pb.Height t)))
        = .ok { withBucket (pb.Height + MaturityDelay) c.db with
            BlockPath := t.BlockPath ++ [pb.block.ID] } := by
      rw [hkey]
      exact nodeTx_with_path (t.BlockPath ++ [pb.block.ID]) hrev
    have hlenR : lenDelayedSiacoinOutputsHeight (pb.Height + MaturityDelay)
        ({ withBucket (pb.Height + MaturityDelay) c.db with
          BlockPath := t.BlockPath ++ [pb.block.ID] } : Store) = 0 := by
      simp [lenDelayedSiacoinOutputsHeight, withBucket, upd_apply_self, emptyBucket]
    have hdelR := deleteObsolete_revert_eval hlenR
    have hneR : ¬(rmDelayedSiacoinOutputs (pb.Height + MaturityDelay)
        { withBucket (pb.Height + MaturityDelay) c.db with
          BlockPath := t.BlockPath ++ [pb.block.ID] }).BlockPath = [] := by
      show ¬(t.BlockPath ++ [pb.block.ID]) = []
      simp
    have hupdR := @updatePath_revert_eval pb
      (rmDelayedSiacoinOutputs (pb.Height + MaturityDelay)
        { withBucket (pb.Height + MaturityDelay) c.db with
          BlockPath := t.BlockPath ++ [pb.block.ID] }) hneR
    have hrevCds := commitDiffSet_eval hsanR hcreR hndR hdelR hupdR
    have hw : ({ rmDelayedSiacoinOutputs (pb.Height + MaturityDelay)
        { withBucket (pb.Height + MaturityDelay) c.db with
          BlockPath := t.BlockPath ++ [pb.block.ID] } with
        BlockPath := (rmDelayedSiacoinOutputs (pb.Height + MaturityDelay)
          { withBucket (pb.Height + MaturityDelay) c.db with
            BlockPath := t.BlockPath ++ [pb.block.ID] }).BlockPath.dropLast } : Store)
        = c.db := by
      refine Store.ext rfl rfl rfl ?_ rfl ?_ rfl
      · show upd (upd c.db.DelayedSiacoinOutputs (pb.Height + MaturityDelay)
          (some emptyBucket)) (pb.Height + MaturityDelay) none
          = c.db.DelayedSiacoinOutputs
        rw [upd_upd]
        exact upd_eq_self _ _ _ hbkt
      · show (t.BlockPath ++ [pb.block.ID]).dropLast = c.db.BlockPath
        rw [List.dropLast_concat]
        exact htp
    rw [hrevCds]
    exact congrArg (fun d =>
      ((Res.ok (), ({ db := d, dosBlocks := c.dosBlocks } : CState))
        : Res Unit × CState)) hw
  · have hdelA := @deleteObsolete_apply_low pb t hH
    have hupdA := updatePath_apply_eval pb t
    have happly := commitDiffSet_eval hsanA hcreA hnode hdelA hupdA
    refine ⟨{ c with db := pushStore pb.block.ID t }, happly, ?_⟩
    have hcur : currentBlockID (pushStore pb.block.ID t) = pb.block.ID := by
      show (t.BlockPath ++ [pb.block.ID]).getLastD 0 = pb.block.ID
      exact List.getLastD_concat _ _ _
    have hsanR : commitDiffSetSanity pb .DiffRevert
        { c with db := pushStore pb.block.ID t } = .ok () := sanity_revert_ok hDG hcur
    have hcreR : createUpcomingDelayedOutputMaps pb .DiffRevert (pushStore pb.block.ID t)
        = .ok (pushStore pb.block.ID t) :=
      createUpcoming_revert_noop (fun hx => absurd hx hH)
    have hndR : commitNodeDiffsTx pb .DiffRevert (pushStore pb.block.ID t)
        = .ok { withBucket (pb.Height + MaturityDelay) c.db with
            BlockPath := t.BlockPath ++ [pb.block.ID] } :=
      nodeTx_with_path (t.BlockPath ++ [pb.block.ID]) hrev
    have hlenR : lenDelayedSiacoinOutputsHeight (pb.Height + MaturityDelay)
        ({ withBucket (pb.Height + MaturityDelay) c.db with
          BlockPath := t.BlockPath ++ [pb.block.ID] } : Store) = 0 := by
      simp [lenDelayedSiacoinOutputsHeight, withBucket, upd_apply_self, emptyBucket]
    have hdelR := deleteObsolete_revert_eval hlenR
    have hneR : ¬(rmDelayedSiacoinOutputs (pb.Height + MaturityDelay)
        { withBucket (pb.Height + MaturityDelay) c.db with
          BlockPath := t.BlockPath ++ [pb.block.ID] }).BlockPath = [] := by
      show ¬(t.BlockPath ++ [pb.block.ID]) = []
      simp
    have hupdR := @updatePath_revert_eval pb
      (rmDelayedSiacoinOutputs (pb.Height + MaturityDelay)
        { withBucket (pb.Height + MaturityDelay) c.db with
          BlockPath := t.BlockPath ++ [pb.block.ID] }) hneR
    have hrevCds := commitDiffSet_eval hsanR hcreR hndR hdelR hupdR
    have hw : ({ rmDelayedSiacoinOutputs (pb.Height + MaturityDelay)
        { withBucket (pb.Height + MaturityDelay) c.db with
          BlockPath := t.BlockPath ++ [pb.block.ID] } with
        BlockPath := (rmDelayedSiacoinOutputs (pb.Height + MaturityDelay)
          { withBucket (pb.Height + MaturityDelay) c.db with
            BlockPath := t.BlockPath ++ [pb.block.ID] }).BlockPath.dropLast } : Store)
        = c.db := by
      refine Store.ext rfl rfl rfl ?_ rfl ?_ rfl
      · show upd (upd c.db.DelayedSiacoinOutputs (pb.Height + MaturityDelay)
          (some emptyBucket)) (pb.Height + MaturityDelay) none
          = c.db.DelayedSiacoinOutputs
        rw [upd_upd]
        exact upd_eq_self _ _ _ hbkt
      · show (t.BlockPath ++ [pb.block.ID]).dropLast = c.db.BlockPath
        rw [List.dropLast_concat]
        exact htp
    rw [hrevCds]
    exact congrArg (fun d =>
      ((Res.ok (), ({ db := d, dosBlocks := c.dosBlocks } : CState))
        : Res Unit × CState)) hw

/-- Counterexample to C2 as stated: a block whose single coin-output diff is
a removal recording value 7 for an output stored with value 5 is applied and
then reverted, both calls succeeding, yet the resulting store holds value 7
for that output instead of the original 5 — the storage state is not
bit-identical to the state before the apply. -/
theorem c2_counterexample :
    ∃ c1 : CState, commitDiffSet c2CexNode .DiffApply c2CexC = (.ok (), c1) ∧
      (commitDiffSet c2CexNode .DiffRevert c1).1 = .ok () ∧
      ¬(commitDiffSet c2CexNode .DiffRevert c1).2.db.SiacoinOutputs 0
        = c2CexC.db.SiacoinOutputs 0 :=
  ⟨(commitDiffSet c2CexNode .DiffApply c2CexC).2, rfl, rfl, by decide⟩

/-- Witness for the amended C2 at a concrete block whose single diff
consistently creates a fresh output: apply then revert restores the
consensus set exactly. -/
theorem c2_witness :
    ∃ c1 : CState, commitDiffSet c2wNode .DiffApply c2CexC = (.ok (), c1) ∧
      commitDiffSet c2wNode .DiffRevert c1 = (.ok (), c2CexC) :=
  c2_commitDiffSet_roundtrip c2wNode c2CexC c2Parent _ rfl rfl rfl rfl rfl rfl
    (fun h => absurd h (by decide))

/-- C3 (amended): for every diff of each of the five kinds and every
direction, committing the diff with that direction and then with the
opposite direction restores the prior storage value exactly, provided that
when the first commit performs the inverse (remove) action the stored value
equals the value recorded in the diff (`anyDiffConsistent`); this follows
from the commit engine performing the forward action when the diff's
direction matches the requested direction and the inverse action
otherwise. -/
theorem c3_commit_roundtrip (d : AnyDiff) (dir : DiffDirection) (s s' : Store)
    (h : commitAnyDiff d dir s = .ok s') (hc : anyDiffConsistent d dir s = true) :
    commitAnyDiff d dir.opposite s' = .ok s := by
  cases d with
  | sco d =>
    simp only [commitAnyDiff] at h ⊢
    rw [commitSCOD_comp] at h
    obtain ⟨m, hm, rfl⟩ := liftRes_ok h
    rw [commitSCOD_comp]
    dsimp only
    rw [show scodM dir.opposite d m = .ok s.SiacoinOutputs from entryM_rt _ _ _ _ _ _ _ hm hc]
    rfl
  | fc d =>
    simp only [commitAnyDiff] at h ⊢
    rw [commitFCD_comp] at h
    obtain ⟨m, hm, rfl⟩ := liftRes_ok h
    rw [commitFCD_comp]
    dsimp only
    rw [show fcdM dir.opposite d m = .ok s.FileContracts from entryM_rt _ _ _ _ _ _ _ hm hc]
    rfl
  | sfo d =>
    simp only [commitAnyDiff] at h ⊢
    rw [commitSFOD_comp] at h
    obtain ⟨m, hm, rfl⟩ := liftRes_ok h
    rw [commitSFOD_comp]
    dsimp only
    rw [show sfodM dir.opposite d m = .ok s.SiafundOutputs from entryM_rt _ _ _ _ _ _ _ hm hc]
    rfl
  | dsco d =>
    simp only [commitAnyDiff] at h ⊢
    rw [commitDSCOD_comp] at h
    obtain ⟨m, hm, rfl⟩ := liftRes_ok h
    rw [commitDSCOD_comp]
    dsimp only
    rw [dscodM_rt _ _ _ _ hm hc]
    rfl
  | pool d =>
    simp only [commitAnyDiff] at h ⊢
    rw [commitSFPD_comp] at h
    obtain ⟨p, hp, rfl⟩ := liftRes_ok h
    rw [commitSFPD_comp]
    dsimp only
    rw [sfpdM_rt dir d s.SiafundPool p hp]
    rfl

/-- C3 counterexample: the round-trip law as literally stated fails when
the inverse action runs first against a stored value that differs from the
value recorded in the diff: the diff records value 7 under id 0, the store
holds value 5; remove-then-add succeeds in both directions yet ends with
value 7. -/
theorem c3_counterexample :
    ∃ s1 s2, commitAnyDiff c3CexDiff .DiffRevert oneOutputStore = .ok s1 ∧
      commitAnyDiff c3CexDiff (DiffDirection.opposite .DiffRevert) s1 = .ok s2 ∧
      ¬s2 = oneOutputStore := by
  refine ⟨_, _, rfl, rfl, fun he => ?_⟩
  have h0 := congrArg (fun st => st.SiacoinOutputs 0) he
  simp [commitAnyDiff, c3CexDiff, commitSiacoinOutputDiff, addSiacoinOutput,
    removeSiacoinOutput, oneOutputStore, emptyStore, upd] at h0

/-- C3 witness: the amended round trip at a concrete add-first instance. -/
theorem c3_witness : commitAnyDiff c3wDiff DiffDirection.DiffApply.opposite c3wS1
    = .ok emptyStore :=
  c3_commit_roundtrip c3wDiff .DiffApply emptyStore c3wS1 rfl rfl

/-- C4: commitNodeDiffs runs all diff commits of a block inside one atomic
storage transaction, so a single diff commit returning an error aborts the
whole transaction and leaves the consensus state unchanged: no partial
category commits survive. -/
theorem c4_commitNodeDiffs_atomic (pb : ProcessedBlock) (dir : DiffDirection)
    (c : CState) (e : Err) (c' : CState)
    (h : commitNodeDiffs pb dir c = (.err e, c')) : c' = c := by
  simp only [commitNodeDiffs, dbUpdate] at h
  split at h
  · exact absurd (congrArg Prod.fst h) (by simp)
  · exact (congrArg Prod.snd h).symm
  · exact absurd (congrArg Prod.fst h) (by simp)

/-- C4 witness: a node whose single coin-output diff fails leaves the empty
consensus state untouched. -/
theorem c4_witness : (commitNodeDiffs c4Node .DiffApply cEmpty).2 = cEmpty :=
  c4_commitNodeDiffs_atomic c4Node .DiffApply cEmpty .badCommitSiacoinOutputDiff
    (commitNodeDiffs c4Node .DiffApply cEmpty).2 rfl

/-- C5: commitNodeDiffs processes the five diff collections in the fixed
category order coin outputs, contracts, siafund outputs, delayed outputs,
pool — each in insertion order when applying, and each in reverse insertion
order (same relative category order) when reverting — as witnessed by its
equality with the single fold over the spec-side ordered diff sequence. -/
theorem c5_commitNodeDiffs_order (pb : ProcessedBlock) (dir : DiffDirection) (c : CState) :
    commitNodeDiffs pb dir c
      = dbUpdate (commitEach (fun d => commitAnyDiff d dir) (specDiffOrder pb dir)) c := by
  simp only [commitNodeDiffs, dbUpdate, commitNodeDiffsTx_eq_specOrder]

/-- C6: before a block's diffs are committed the bucket for
Height + MaturityDelay is ensured when applying, and the bucket for Height
when reverting past the maturity window; after committing, the
now-consumed bucket (Height when applying past the window,
Height + MaturityDelay when reverting) is destroyed under the assertion
that it is empty — destroying a non-empty bucket never happens, a non-empty
target is a fatal fault instead. -/
theorem c6_bucket_lifecycle (pb : ProcessedBlock) (dir : DiffDirection) (s : Store) :
    (∃ t, createUpcomingDelayedOutputMaps pb .DiffApply s = .ok t ∧
      (t.DelayedSiacoinOutputs (pb.Height + MaturityDelay)).isSome = true) ∧
    (MaturityDelay < pb.Height →
      ∃ t, createUpcomingDelayedOutputMaps pb .DiffRevert s = .ok t ∧
        (t.DelayedSiacoinOutputs pb.Height).isSome = true) ∧
    (¬MaturityDelay < pb.Height → createUpcomingDelayedOutputMaps pb .DiffRevert s = .ok s) ∧
    (MaturityDelay < pb.Height → lenDelayedSiacoinOutputsHeight pb.Height s = 0 →
      deleteObsoleteDelayedOutputMaps pb .DiffApply s
        = .ok (rmDelayedSiacoinOutputs pb.Height s)) ∧
    (MaturityDelay < pb.Height → ¬lenDelayedSiacoinOutputsHeight pb.Height s = 0 →
      deleteObsoleteDelayedOutputMaps pb .DiffApply s = .fatal .deletingNonEmptyDelayedMap) ∧
    (¬MaturityDelay < pb.Height → deleteObsoleteDelayedOutputMaps pb .DiffApply s = .ok s) ∧
    (lenDelayedSiacoinOutputsHeight (pb.Height + MaturityDelay) s = 0 →
      deleteObsoleteDelayedOutputMaps pb .DiffRevert s
        = .ok (rmDelayedSiacoinOutputs (pb.Height + MaturityDelay) s)) ∧
    (¬lenDelayedSiacoinOutputsHeight (pb.Height + MaturityDelay) s = 0 →
      deleteObsoleteDelayedOutputMaps pb .DiffRevert s = .fatal .deletingNonEmptyDelayedMap) ∧
    (∀ v, deleteObsoleteDelayedOutputMaps pb dir s = .ok v →
      ∀ hh, ¬v.DelayedSiacoinOutputs hh = s.DelayedSiacoinOutputs hh →
        lenDelayedSiacoinOutputsHeight hh s = 0) := by
  refine ⟨?_, ?_, ?_, ?_, ?_, ?_, ?_, ?_, ?_⟩
  · by_cases hb : (s.DelayedSiacoinOutputs (pb.Height + MaturityDelay)).isSome = true
    · exact ⟨s, by simpa only [createUpcomingDelayedOutputMaps] using
        createDSCOBucket_present hb, hb⟩
    · have hbn : s.DelayedSiacoinOutputs (pb.Height + MaturityDelay) = none :=
        Option.not_isSome_iff_eq_none.mp hb
      exact ⟨withBucket (pb.Height + MaturityDelay) s, createUpcoming_apply_absent hbn,
        by simp [withBucket, upd]⟩
  · intro hH
    by_cases hb : (s.DelayedSiacoinOutputs pb.Height).isSome = true
    · exact ⟨s, createUpcoming_revert_noop (fun _ => hb), hb⟩
    · have hbn : s.DelayedSiacoinOutputs pb.Height = none :=
        Option.not_isSome_iff_eq_none.mp hb
      exact ⟨withBucket pb.Height s, createUpcoming_revert_create hH hbn,
        by simp [withBucket, upd]⟩
  · intro hH
    simp only [createUpcomingDelayedOutputMaps]
    rw [if_neg hH]
  · exact fun hH hlen => deleteObsolete_apply_high hH hlen
  · intro hH hne
    simp only [deleteObsoleteDelayedOutputMaps]
    rw [if_pos hH, if_pos ⟨rfl, hne⟩]
  · exact fun hH => deleteObsolete_apply_low hH
  · exact fun hlen => deleteObsolete_revert_eval hlen
  · intro hne
    simp only [deleteObsoleteDelayedOutputMaps]
    rw [if_pos ⟨rfl, hne⟩]
  · intro v hv hh hdiff
    rcases deleteObsolete_shape hv with h1 | ⟨hh0, hlen, h1⟩
    · subst h1
      exact absurd rfl hdiff
    · subst h1
      by_cases hx : hh = hh0
      · subst hx
        exact hlen
      · exact absurd (upd_apply_other _ _ _ _ hx) hdiff

/-- C6 witness: reverting a block at height 145 destroys the empty bucket
at height 145 + MaturityDelay. -/
theorem c6_witness : deleteObsoleteDelayedOutputMaps c6Node .DiffRevert emptyStore
    = .ok (rmDelayedSiacoinOutputs (c6Node.Height + MaturityDelay) emptyStore) :=
  (c6_bucket_lifecycle c6Node .DiffRevert emptyStore).2.2.2.2.2.2.1 rfl

/-- C7: a pool diff commits in the apply direction only when it carries the
apply tag, its adjustment is non-negative and the stored pool equals its
previous value, and then sets the pool to the adjusted value; reverting
requires the stored pool to equal the adjusted value and restores the
previous value; any mismatch is a fatal invariant violation; consequently
the pool value never decreases across an applied diff set. -/
theorem c7_pool (sfpd : SiafundPoolDiff) (pb : ProcessedBlock) (s : Store) (c c' : CState) :
    (∀ s2, commitSiafundPoolDiff sfpd .DiffApply s = .ok s2 →
      s.SiafundPool = sfpd.Previous ∧ s2 = { s with SiafundPool := sfpd.Adjusted } ∧
      sfpd.Previous ≤ sfpd.Adjusted ∧ sfpd.Direction = .DiffApply) ∧
    (∀ s2, commitSiafundPoolDiff sfpd .DiffRevert s = .ok s2 →
      s.SiafundPool = sfpd.Adjusted ∧ s2 = { s with SiafundPool := sfpd.Previous }) ∧
    (sfpd.Adjusted < sfpd.Previous → ∀ dir2,
      commitSiafundPoolDiff sfpd dir2 s = .fatal .negativePoolAdjustment) ∧
    (¬sfpd.Adjusted < sfpd.Previous → sfpd.Direction = .DiffApply →
      ¬s.SiafundPool = sfpd.Previous →
      commitSiafundPoolDiff sfpd .DiffApply s = .fatal .applySiafundPoolDiffMismatch) ∧
    (¬sfpd.Adjusted < sfpd.Previous → sfpd.Direction = .DiffApply →
      ¬s.SiafundPool = sfpd.Adjusted →
      commitSiafundPoolDiff sfpd .DiffRevert s = .fatal .revertSiafundPoolDiffMismatch) ∧
    (commitDiffSet pb .DiffApply c = (.ok (), c') →
      c.db.SiafundPool ≤ c'.db.SiafundPool) := by
  refine ⟨?_, ?_, ?_, ?_, ?_, ?_⟩
  · intro s2 h
    rw [commitSFPD_comp] at h
    obtain ⟨p, hp, rfl⟩ := liftRes_ok h
    obtain ⟨hprev, hadj, hmono, hdir⟩ := sfpdM_apply_ok_inv hp
    subst hadj
    exact ⟨hprev, rfl, hmono, hdir⟩
  · intro s2 h
    rw [commitSFPD_comp] at h
    obtain ⟨p, hp, rfl⟩ := liftRes_ok h
    obtain ⟨hadj, hprev⟩ := sfpdM_revert_ok_inv hp
    subst hprev
    exact ⟨hadj, rfl⟩
  · intro hneg dir2
    simp only [commitSiafundPoolDiff]
    rw [if_pos ⟨rfl, hneg⟩]
  · intro h1 hdir hps
    simp only [commitSiafundPoolDiff]
    rw [if_neg (fun hx => h1 hx.2), if_neg (fun hx => hx.2 hdir), if_pos ⟨rfl, hps⟩]
  · intro h1 hdir hps
    simp only [commitSiafundPoolDiff]
    rw [if_neg (fun hx => h1 hx.2), if_neg (fun hx => hx.2 hdir), if_pos ⟨rfl, hps⟩]
  · exact commitDiffSet_apply_pool

/-- C7 witness: applying the pool diff 0 to 10 on the zero-pool store. -/
theorem c7_witness :
    emptyStore.SiafundPool = c7d.Previous ∧
    c7wS = { emptyStore with SiafundPool := c7d.Adjusted } ∧
    c7d.Previous ≤ c7d.Adjusted ∧ c7d.Direction = .DiffApply :=
  (c7_pool c7d plainNode emptyStore cEmpty cEmpty).1 c7wS rfl

/-- C8: committing a diff set demands that the node's diffs were generated,
that the node's parent is the current tip when applying, and that the node
itself is the current tip when reverting; generateAndApplyDiff demands that
the block's declared parent is the current tip; each violation is rejected
as a fatal fault (not a recoverable error) with the state unchanged. -/
theorem c8_sanity (pb : ProcessedBlock) (dir : DiffDirection) (c : CState)
    (collab : Collaborators) :
    (¬pb.DiffsGenerated = true → commitDiffSet pb dir c = (.fatal .diffsNotGenerated, c)) ∧
    (pb.DiffsGenerated = true → ∀ par, c.db.BlockMap pb.Parent = some par →
      ¬par.block.ID = currentBlockID c.db →
      commitDiffSet pb .DiffApply c = (.fatal .wrongAppliedDiffSet, c)) ∧
    (pb.DiffsGenerated = true → ¬pb.block.ID = currentBlockID c.db →
      commitDiffSet pb .DiffRevert c = (.fatal .wrongRevertDiffSet, c)) ∧
    (¬pb.Parent = currentBlockID c.db →
      generateAndApplyDiff collab pb c = (.fatal .invalidSuccessor, pb, c)) := by
  refine ⟨?_, ?_, ?_, ?_⟩
  · intro hDG
    exact commitDiffSet_sanity_fatal (sanity_fatal_noDG hDG)
  · intro hDG par hpar hid
    exact commitDiffSet_sanity_fatal (sanity_fatal_wrongApply hDG hpar hid)
  · intro hDG hid
    exact commitDiffSet_sanity_fatal (sanity_fatal_wrongRevert hDG hid)
  · intro hx
    simp only [generateAndApplyDiff]
    rw [if_pos ⟨rfl, hx⟩]

/-- C8 witness: a block whose declared parent is not the tip is rejected as
a fatal invalid successor. -/
theorem c8_witness : generateAndApplyDiff trivialCollab plainNode cEmpty
    = (.fatal .invalidSuccessor, plainNode, cEmpty) :=
  (c8_sanity plainNode .DiffApply cEmpty trivialCollab).2.2.2 (by decide)

/-- C9: when the commit of a node's diffs returns an error, commitDiffSet
discards it: it proceeds with the obsolete-bucket deletion and the path
update on the rolled-back store, and its own result is never that error
(nor any other recoverable error). -/
theorem c9_error_discarded (pb : ProcessedBlock) (dir : DiffDirection) (c : CState)
    (t : Store) (e : Err)
    (hsan : commitDiffSetSanity pb dir c = .ok ())
    (hcre : createUpcomingDelayedOutputMaps pb dir c.db = .ok t)
    (hnd : commitNodeDiffsTx pb dir t = .err e) :
    commitDiffSet pb dir c = deleteAndPath pb dir { c with db := t } ∧
    ∀ e2, ¬(commitDiffSet pb dir c).1 = .err e2 := by
  have h1 : commitDiffSet pb dir c = deleteAndPath pb dir { c with db := t } := by
    simp only [commitDiffSet, hsan, dbUpdate, hcre, commitNodeDiffs, hnd]
  exact ⟨h1, fun e2 hx => deleteAndPath_no_err pb dir { c with db := t } e2 (h1 ▸ hx)⟩

/-- C9 witness: a node whose revert re-adds an already present output errs
inside commitNodeDiffs, yet commitDiffSet proceeds to the cleanup and path
update. -/
theorem c9_witness :
    commitDiffSet c9Node .DiffRevert c9C = deleteAndPath c9Node .DiffRevert { c9C with db := c9C.db } ∧
    ∀ e2, ¬(commitDiffSet c9Node .DiffRevert c9C).1 = .err e2 :=
  c9_error_discarded c9Node .DiffRevert c9C c9C.db .badCommitSiacoinOutputDiff rfl rfl rfl

/-- C10: when a transaction passes validation but applying its effects
fails, generateAndApplyDiff returns that error immediately: the store stays
at the partially applied state reached on entry to the failing transaction
(no diffs are reverted) and the known-invalid set is untouched — unlike the
failed-validation path. -/
theorem c10_apply_error_no_rollback (collab : Collaborators) (pb : ProcessedBlock)
    (c : CState) (e : Err) (pbK : ProcessedBlock) (sK s1 : Store)
    (hpar : pb.Parent = currentBlockID c.db)
    (hinit : gadInit pb c.db = .ok s1)
    (hrun : runAppFails collab pb.block.Transactions { pb with DiffsGenerated := true } s1
      = some (e, pbK, sK)) :
    generateAndApplyDiff collab pb c = (.err e, pbK, ⟨sK, c.dosBlocks⟩) := by
  simp only [generateAndApplyDiff]
  rw [if_neg (fun hx => hx.2 hpar)]
  simp only [hinit]
  have hl := gadLoop_appFails collab pb.block.ID pb.block.Transactions
    { pb with DiffsGenerated := true } { c with db := s1 } e pbK sK hrun
  simp only [hl]

/-- C10 witness: a single transaction that validates but whose diff
application fails surfaces the application error with no rollback and no
known-invalid record. -/
theorem c10_witness : generateAndApplyDiff c10Collab c10Node c10C
    = (.err .badCommitSiacoinOutputDiff, { c10Node with DiffsGenerated := true },
        ⟨c10S1, c10C.dosBlocks⟩) :=
  c10_apply_error_no_rollback c10Collab c10Node c10C .badCommitSiacoinOutputDiff
    { c10Node with DiffsGenerated := true } c10S1 c10S1 rfl rfl rfl

end SiaConsensus
